import Mathlib

/-!
Verification of the my-vector-db entity store, filter construction and
flat vector index.

The Python sources are embedded shallowly:
- Python `UUID` keys become `Nat`; Python dicts become association lists
  with first-match lookup, in-place replacement and key removal (dict keys
  are unique, so removing every entry with the key equals `del`).
- Python floats become `Rat` in the entity store (where they are only
  carried, never computed on) and `Real` in the flat-index model (where
  metric values are computed).
- Functions that raise become `Except String`; functions returning
  `Optional` / `bool` keep those shapes as `Option` / `Bool`.
- Pydantic model construction is embedded including its validation order:
  fields are validated in declaration order, a `field_validator` sees only
  previously validated fields in `info.data`, and validators do not run on
  default values.
-/

namespace VecDB

/-- Identities: Python UUIDs, modelled as natural numbers. -/
abbrev UUID := Nat

/-- First-match lookup in an association list, the embedding of
`dict.get` / `dict[k]` reads. -/
def lookup : List (UUID × α) → UUID → Option α
  | [], _ => none
  | p :: rest, k => if p.1 = k then some p.2 else lookup rest k

/-- Embedding of `dict[k] = v`: replace the first entry with key `k`
keeping its position, or append a new entry at the end. -/
def setKey : List (UUID × α) → UUID → α → List (UUID × α)
  | [], k, v => [(k, v)]
  | p :: rest, k, v => if p.1 = k then (k, v) :: rest else p :: setKey rest k v

/-- Embedding of `del dict[k]`: remove the entries with key `k` (dict keys
are unique, so this removes exactly the one entry `del` removes). -/
def eraseKey : List (UUID × α) → UUID → List (UUID × α)
  | [], _ => []
  | p :: rest, k => if p.1 = k then eraseKey rest k else p :: eraseKey rest k

/-- Embeds `IndexType` from `src/src/my_vector_db/domain/models.py`
(the same enum appears in `src/src/my_vector_db/sdk/models.py`): the two
enum members are `FLAT = "flat"` (the exact index) and `HNSW = "hnsw"`
(the tag under which the clustered IVF index of this repository is
selected; the spec calls this variant "clustered"). -/
inductive IndexType where
  | flat
  | hnsw
deriving DecidableEq

/-- String value of each `IndexType` member, as in the Python `str` enum. -/
def IndexType.value : IndexType → String
  | .flat => "flat"
  | .hnsw => "hnsw"

/-- Embedding of pydantic validation of an `IndexType` field: a string is
accepted exactly when it is the value of one of the enum members. -/
def indexTypeOfString (s : String) : Option IndexType :=
  if s = "flat" then some .flat
  else if s = "hnsw" then some .hnsw
  else none

/-- Embeds `Chunk` from `src/src/my_vector_db/domain/models.py`.
`metadata : Dict[str, Any]` is modelled as a string-to-string association
list (the store never interprets the values) and `created_at` as a
numeric timestamp. -/
structure Chunk where
  id : UUID
  text : String
  embedding : List Rat
  metadata : List (String × String)
  document_id : UUID
  created_at : Nat
deriving DecidableEq

/-- Embeds `Document` from `src/src/my_vector_db/domain/models.py`. -/
structure Document where
  id : UUID
  name : String
  chunk_ids : List UUID
  metadata : List (String × String)
  library_id : UUID
  created_at : Nat
deriving DecidableEq

/-- Embeds `Library` from `src/src/my_vector_db/domain/models.py`.
`index_config : Dict[str, Any]` is modelled as a string-to-string
association list. -/
structure Library where
  id : UUID
  name : String
  document_ids : List UUID
  metadata : List (String × String)
  index_type : IndexType
  index_config : List (String × String)
  created_at : Nat
deriving DecidableEq

/-- Embeds the state of `VectorStorage` from
`src/src/my_vector_db/storage.py`: the three dictionaries `_libraries`,
`_documents`, `_chunks`. The `RLock` only serialises operations and has no
sequential semantics, so it is not modelled. -/
structure VectorStorage where
  libraries : List (UUID × Library)
  documents : List (UUID × Document)
  chunks : List (UUID × Chunk)
deriving DecidableEq

/-- The state `VectorStorage.__init__` produces: three empty dicts. -/
def emptyStorage : VectorStorage := ⟨[], [], []⟩

/-- Embeds `VectorStorage.create_library`: reject an existing id, else
store the library. -/
def create_library (s : VectorStorage) (library : Library) : Except String VectorStorage :=
  if (lookup s.libraries library.id).isSome then
    .error ("Library with this ID already exists")
  else
    .ok { s with libraries := setKey s.libraries library.id library }

/-- Embeds `VectorStorage.get_library`: `None` when absent. -/
def get_library (s : VectorStorage) (library_id : UUID) : Option Library :=
  lookup s.libraries library_id

/-- Embeds `VectorStorage.update_library`: reject an unknown id, else
replace the stored value. -/
def update_library (s : VectorStorage) (library_id : UUID) (library : Library) :
    Except String VectorStorage :=
  if (lookup s.libraries library_id).isNone then
    .error ("Library with this ID not found")
  else
    .ok { s with libraries := setKey s.libraries library_id library }

/-- Embeds `VectorStorage.create_document`: reject an existing id, reject a
missing parent library, else store the document and append its id to the
parent library's `document_ids` when not already present. -/
def create_document (s : VectorStorage) (document : Document) : Except String VectorStorage :=
  if (lookup s.documents document.id).isSome then
    .error ("Document with this ID already exists")
  else
    match lookup s.libraries document.library_id with
    | none => .error ("Library with this ID not found")
    | some library =>
      let s1 := { s with documents := setKey s.documents document.id document }
      let library2 := { library with document_ids := library.document_ids ++ [document.id] }
      .ok (if document.id ∈ library.document_ids then s1
           else { s1 with libraries := setKey s1.libraries document.library_id library2 })

/-- Embeds `VectorStorage.get_document`. -/
def get_document (s : VectorStorage) (document_id : UUID) : Option Document :=
  lookup s.documents document_id

/-- Embeds `VectorStorage.update_document`. -/
def update_document (s : VectorStorage) (document_id : UUID) (document : Document) :
    Except String VectorStorage :=
  if (lookup s.documents document_id).isNone then
    .error ("Document with this ID not found")
  else
    .ok { s with documents := setKey s.documents document_id document }

/-- Embeds `VectorStorage.create_chunk`: reject an existing id, reject a
missing parent document, else store the chunk and append its id to the
parent document's `chunk_ids` when not already present. Note that the
embedding list is never inspected. -/
def create_chunk (s : VectorStorage) (chunk : Chunk) : Except String VectorStorage :=
  if (lookup s.chunks chunk.id).isSome then
    .error ("Chunk with this ID already exists")
  else
    match lookup s.documents chunk.document_id with
    | none => .error ("Document with this ID not found")
    | some document =>
      let s1 := { s with chunks := setKey s.chunks chunk.id chunk }
      let document2 := { document with chunk_ids := document.chunk_ids ++ [chunk.id] }
      .ok (if chunk.id ∈ document.chunk_ids then s1
           else { s1 with documents := setKey s1.documents chunk.document_id document2 })

/-- Embeds `VectorStorage.get_chunk`. -/
def get_chunk (s : VectorStorage) (chunk_id : UUID) : Option Chunk :=
  lookup s.chunks chunk_id

/-- Embeds `VectorStorage.update_chunk`: reject an unknown id, else replace
the stored value (no parent or embedding validation). -/
def update_chunk (s : VectorStorage) (chunk_id : UUID) (chunk : Chunk) :
    Except String VectorStorage :=
  if (lookup s.chunks chunk_id).isNone then
    .error ("Chunk with this ID not found")
  else
    .ok { s with chunks := setKey s.chunks chunk_id chunk }

/-- Embeds `VectorStorage.delete_chunk`: `False` when the id is unknown;
otherwise remove the id from the parent document's `chunk_ids` (when the
parent exists and lists it) and delete the chunk. -/
def delete_chunk (s : VectorStorage) (chunk_id : UUID) : Bool × VectorStorage :=
  match lookup s.chunks chunk_id with
  | none => (false, s)
  | some chunk =>
    let s1 :=
      match lookup s.documents chunk.document_id with
      | some document =>
        let document2 := { document with chunk_ids := document.chunk_ids.erase chunk_id }
        if chunk_id ∈ document.chunk_ids then
          { s with documents := setKey s.documents chunk.document_id document2 }
        else s
      | none => s
    (true, { s1 with chunks := eraseKey s1.chunks chunk_id })

/-- Embeds `VectorStorage.delete_document`: `False` when the id is unknown;
otherwise delete every chunk in a snapshot of the document's `chunk_ids`,
remove the id from the parent library's `document_ids` (when present), and
delete the document. -/
def delete_document (s : VectorStorage) (document_id : UUID) : Bool × VectorStorage :=
  match lookup s.documents document_id with
  | none => (false, s)
  | some document =>
    let s1 := document.chunk_ids.foldl (fun t cid => (delete_chunk t cid).2) s
    let s2 :=
      match lookup s1.libraries document.library_id with
      | some library =>
        let library2 := { library with document_ids := library.document_ids.erase document_id }
        if document_id ∈ library.document_ids then
          { s1 with libraries := setKey s1.libraries document.library_id library2 }
        else s1
      | none => s1
    (true, { s2 with documents := eraseKey s2.documents document_id })

/-- Embeds `VectorStorage.delete_library`: `False` when the id is unknown;
otherwise delete every document in a snapshot of the library's
`document_ids` (each deleting its chunks) and then the library itself. -/
def delete_library (s : VectorStorage) (library_id : UUID) : Bool × VectorStorage :=
  match lookup s.libraries library_id with
  | none => (false, s)
  | some library =>
    let s1 := library.document_ids.foldl (fun t did => (delete_document t did).2) s
    (true, { s1 with libraries := eraseKey s1.libraries library_id })

/-- Embeds the validation loop of `VectorStorage.create_chunks_batch`:
the first chunk whose id already exists or whose parent document is
missing yields the corresponding error; `none` means all pass. All checks
read the state from before the call. -/
def chunks_batch_validate (s : VectorStorage) : List Chunk → Option String
  | [] => none
  | chunk :: rest =>
    if (lookup s.chunks chunk.id).isSome then
      some ("Chunk with this ID already exists")
    else if (lookup s.documents chunk.document_id).isNone then
      some ("Document with this ID not found")
    else chunks_batch_validate s rest

/-- Embeds one iteration of the creation loop of
`VectorStorage.create_chunks_batch`: store the chunk, then append its id
to the parent document's `chunk_ids` when not already present. The parent
lookup cannot fail after validation because the loop never removes
documents; the `none` branch is the unreachable `KeyError`. -/
def insert_chunk_unchecked (s : VectorStorage) (chunk : Chunk) : VectorStorage :=
  let s1 := { s with chunks := setKey s.chunks chunk.id chunk }
  match lookup s1.documents chunk.document_id with
  | some document =>
    let document2 := { document with chunk_ids := document.chunk_ids ++ [chunk.id] }
    if chunk.id ∈ document.chunk_ids then s1
    else { s1 with documents := setKey s1.documents chunk.document_id document2 }
  | none => s1

/-- Embeds `VectorStorage.create_chunks_batch`: validate every chunk
against the pre-call state, then (only if all pass) run the creation loop. -/
def create_chunks_batch (s : VectorStorage) (chunks : List Chunk) :
    Except String VectorStorage :=
  match chunks_batch_validate s chunks with
  | some e => .error e
  | none => .ok (chunks.foldl insert_chunk_unchecked s)

/-- Embeds the validation loop of `VectorStorage.create_documents_batch`. -/
def documents_batch_validate (s : VectorStorage) : List Document → Option String
  | [] => none
  | document :: rest =>
    if (lookup s.documents document.id).isSome then
      some ("Document with this ID already exists")
    else if (lookup s.libraries document.library_id).isNone then
      some ("Library with this ID not found")
    else documents_batch_validate s rest

/-- Embeds one iteration of the creation loop of
`VectorStorage.create_documents_batch`. -/
def insert_document_unchecked (s : VectorStorage) (document : Document) : VectorStorage :=
  let s1 := { s with documents := setKey s.documents document.id document }
  match lookup s1.libraries document.library_id with
  | some library =>
    let library2 := { library with document_ids := library.document_ids ++ [document.id] }
    if document.id ∈ library.document_ids then s1
    else { s1 with libraries := setKey s1.libraries document.library_id library2 }
  | none => s1

/-- Embeds `VectorStorage.create_documents_batch`. -/
def create_documents_batch (s : VectorStorage) (documents : List Document) :
    Except String VectorStorage :=
  match documents_batch_validate s documents with
  | some e => .error e
  | none => .ok (documents.foldl insert_document_unchecked s)

/-- One entity-store operation, for reasoning about operation sequences. -/
inductive Op where
  | createLib (lib : Library)
  | updateLib (library_id : UUID) (lib : Library)
  | deleteLib (library_id : UUID)
  | createDoc (doc : Document)
  | updateDoc (document_id : UUID) (doc : Document)
  | deleteDoc (document_id : UUID)
  | createChunk (chunk : Chunk)
  | updateChunk (chunk_id : UUID) (chunk : Chunk)
  | deleteChunk (chunk_id : UUID)
  | createChunksBatch (chunks : List Chunk)
  | createDocsBatch (docs : List Document)
deriving DecidableEq

/-- Apply one operation to a store; a raising operation leaves the caller's
state unchanged, a boolean-returning delete just yields its new state. -/
def applyOp (s : VectorStorage) : Op → VectorStorage
  | .createLib lib => match create_library s lib with | .ok t => t | .error _ => s
  | .updateLib i lib => match update_library s i lib with | .ok t => t | .error _ => s
  | .deleteLib i => (delete_library s i).2
  | .createDoc doc => match create_document s doc with | .ok t => t | .error _ => s
  | .updateDoc i doc => match update_document s i doc with | .ok t => t | .error _ => s
  | .deleteDoc i => (delete_document s i).2
  | .createChunk c => match create_chunk s c with | .ok t => t | .error _ => s
  | .updateChunk i c => match update_chunk s i c with | .ok t => t | .error _ => s
  | .deleteChunk i => (delete_chunk s i).2
  | .createChunksBatch cs => match create_chunks_batch s cs with | .ok t => t | .error _ => s
  | .createDocsBatch ds => match create_documents_batch s ds with | .ok t => t | .error _ => s

/-- Execute a sequence of operations from a starting state. -/
def execOps (s : VectorStorage) (ops : List Op) : VectorStorage :=
  ops.foldl applyOp s

/-- Service-level discipline on a single operation, as the callers of the
store observe it: update requests cannot change an entity's parent id or
child-id list (the request models have no such fields), create requests
carry empty child-id lists, and batch elements that share an id share a
parent. Deletes and well-formed creates are unrestricted. -/
def opOk (s : VectorStorage) : Op → Bool
  | .createLib lib => decide (lib.document_ids = [])
  | .updateLib i lib =>
    match lookup s.libraries i with
    | some old => decide (lib.document_ids = old.document_ids)
    | none => true
  | .createDoc doc => decide (doc.chunk_ids = [])
  | .updateDoc i doc =>
    match lookup s.documents i with
    | some old => decide (doc.chunk_ids = old.chunk_ids ∧ doc.library_id = old.library_id)
    | none => true
  | .updateChunk i c =>
    match lookup s.chunks i with
    | some old => decide (c.document_id = old.document_id)
    | none => true
  | .createChunksBatch cs =>
    decide (∀ c1 ∈ cs, ∀ c2 ∈ cs, c1.id = c2.id → c1.document_id = c2.document_id)
  | .createDocsBatch ds =>
    decide ((∀ d ∈ ds, d.chunk_ids = []) ∧
      (∀ d1 ∈ ds, ∀ d2 ∈ ds, d1.id = d2.id → d1.library_id = d2.library_id))
  | _ => true

/-- A whole trace obeys the service-level discipline. -/
def traceOk (s : VectorStorage) : List Op → Bool
  | [] => true
  | op :: rest => opOk s op && traceOk (applyOp s op) rest

/-- The parent-child exactness invariant of the spec: every stored
document's `chunk_ids` contains exactly the ids of the stored chunks whose
`document_id` is that document, and every stored library's `document_ids`
likewise for documents. -/
def ChildListsExact (s : VectorStorage) : Prop :=
  (∀ d doc, lookup s.documents d = some doc →
    ∀ c, c ∈ doc.chunk_ids ↔ ∃ ch, lookup s.chunks c = some ch ∧ ch.document_id = d) ∧
  (∀ l lib, lookup s.libraries l = some lib →
    ∀ d, d ∈ lib.document_ids ↔ ∃ doc, lookup s.documents d = some doc ∧ doc.library_id = l)

/-- Keys of an association list are pairwise distinct (always true of a
Python dict). -/
def keysNodup (m : List (UUID × α)) : Prop := (m.map Prod.fst).Nodup

/-- Decidable well-formedness of a store, quantified over the stored
entries: unique keys, exact parent-child lists without duplicates, and
existing parents. This is the conjunction of spec invariants 1, 2 and 4. -/
def WF (s : VectorStorage) : Prop :=
  keysNodup s.libraries ∧ keysNodup s.documents ∧ keysNodup s.chunks ∧
  (∀ p ∈ s.libraries, p.2.document_ids.Nodup ∧
    (∀ d ∈ p.2.document_ids, ∃ q ∈ s.documents, q.1 = d ∧ q.2.library_id = p.1) ∧
    (∀ q ∈ s.documents, q.2.library_id = p.1 → q.1 ∈ p.2.document_ids)) ∧
  (∀ p ∈ s.documents, p.2.chunk_ids.Nodup ∧
    (∀ c ∈ p.2.chunk_ids, ∃ q ∈ s.chunks, q.1 = c ∧ q.2.document_id = p.1) ∧
    (∀ q ∈ s.chunks, q.2.document_id = p.1 → q.1 ∈ p.2.chunk_ids)) ∧
  (∀ q ∈ s.documents, ∃ p ∈ s.libraries, p.1 = q.2.library_id) ∧
  (∀ q ∈ s.chunks, ∃ p ∈ s.documents, p.1 = q.2.document_id)

instance (s : VectorStorage) : Decidable (WF s) := by
  unfold WF keysNodup
  infer_instance

/-- Lookup-oriented form of the document side of `WF`. -/
def DocOk (s : VectorStorage) (d : UUID) (doc : Document) : Prop :=
  doc.chunk_ids.Nodup ∧
  (∀ c ∈ doc.chunk_ids, ∃ ch, lookup s.chunks c = some ch ∧ ch.document_id = d) ∧
  (∀ k ch, lookup s.chunks k = some ch → ch.document_id = d → k ∈ doc.chunk_ids)

/-- Lookup-oriented form of the library side of `WF`. -/
def LibOk (s : VectorStorage) (l : UUID) (lib : Library) : Prop :=
  lib.document_ids.Nodup ∧
  (∀ d ∈ lib.document_ids, ∃ doc, lookup s.documents d = some doc ∧ doc.library_id = l) ∧
  (∀ k doc, lookup s.documents k = some doc → doc.library_id = l → k ∈ lib.document_ids)

/-- Lookup-oriented well-formedness, equivalent to `WF`; the form used by
the preservation proofs. -/
def WFL (s : VectorStorage) : Prop :=
  keysNodup s.libraries ∧ keysNodup s.documents ∧ keysNodup s.chunks ∧
  (∀ l lib, lookup s.libraries l = some lib → LibOk s l lib) ∧
  (∀ d doc, lookup s.documents d = some doc → DocOk s d doc) ∧
  (∀ d doc, lookup s.documents d = some doc → (lookup s.libraries doc.library_id).isSome) ∧
  (∀ k ch, lookup s.chunks k = some ch → (lookup s.documents ch.document_id).isSome)

/-- Embeds `FilterOperator` from `src/src/my_vector_db/domain/models.py`. -/
inductive FilterOperator where
  | eq | ne | gt | gte | lt | lte
  | opIn | not_in | contains | not_contains | starts_with | ends_with
deriving DecidableEq

/-- Embeds `LogicalOperator` from `src/src/my_vector_db/domain/models.py`. -/
inductive LogicalOperator where
  | and
  | or
deriving DecidableEq

/-- Values a metadata filter can compare against
(`Union[str, int, float, bool, datetime, List[Any]]`). -/
inductive FilterValue where
  | str (s : String)
  | int (n : Int)
  | num (q : Rat)
  | bool (b : Bool)
  | datetime (t : Nat)
  | list (vs : List FilterValue)

/-- Embeds `MetadataFilter` from `src/src/my_vector_db/domain/models.py`
(its own value-type validator is not needed here). -/
structure MetadataFilter where
  field : String
  operator : FilterOperator
  value : FilterValue

/-- A member of `FilterGroup.filters`: a leaf `MetadataFilter` or a nested
group. A constructed group is represented by `group operator filters`. -/
inductive FilterTree where
  | leaf (f : MetadataFilter)
  | group (operator : LogicalOperator) (filters : List FilterTree)

/-- Embeds pydantic construction of `FilterGroup` from
`src/src/my_vector_db/domain/models.py`. Both fields have defaults
(`operator = AND`, `filters = []` via `default_factory=list`). The
`validate_filters_not_empty` field validator runs only on a provided
`filters` argument: pydantic does not run field validators on default
values (the model does not set `validate_default`), so construction with
no arguments bypasses the validator. -/
def mkFilterGroup (operator : Option LogicalOperator) (filters : Option (List FilterTree)) :
    Except String FilterTree :=
  let op := operator.getD .and
  match filters with
  | some fs =>
    if fs.isEmpty then .error ("filters list cannot be empty")
    else .ok (.group op fs)
  | none => .ok (.group op [])

/-- Embeds `SearchFilters` from `src/src/my_vector_db/domain/models.py`.
Datetimes are numeric timestamps; `custom_filter` is an in-process
callable excluded from serialisation and irrelevant to construction-time
validation, so it is not carried. -/
structure SearchFilters where
  metadata : Option FilterTree
  created_after : Option Nat
  created_before : Option Nat
  document_ids : Option (List String)

/-- Embeds the body of `SearchFilters.validate_dates` for one validated
field: `v` is the value under validation, `dataCA` and `dataCB` are
`info.data.get("created_after")` and `info.data.get("created_before")`.
The guard requires all three to be truthy, and then compares the two
values read from `info.data`. -/
def validate_dates (v : Option Nat) (dataCA dataCB : Option Nat) : Except String (Option Nat) :=
  match v, dataCA, dataCB with
  | some _, some a, some b =>
    if a ≥ b then .error ("created_after must be before created_before") else .ok v
  | _, _, _ => .ok v

/-- Embeds pydantic construction of `SearchFilters`: fields are validated
in declaration order (`metadata`, `created_after`, `created_before`,
`document_ids`), and the `validate_dates` validator sees in `info.data`
only the fields already validated - in particular never the field it is
currently validating. -/
def mkSearchFilters (metadata : Option FilterTree) (created_after created_before : Option Nat)
    (document_ids : Option (List String)) : Except String SearchFilters := do
  let ca ← validate_dates created_after none none
  let cb ← validate_dates created_before ca none
  .ok ⟨metadata, ca, cb, document_ids⟩

/-- Modelled from the spec: the metric tag of an index
(`cosine`, `euclidean`, `dot_product`); the index implementations are not
under `src/`, only their tests are. -/
inductive Metric where
  | cosine
  | euclidean
  | dot_product
deriving DecidableEq

/-- Modelled from the spec: the inner product of two fixed-dimension real
vectors, the basis of every metric of the flat index (the flat index
source is absent from `src/`). -/
def dotR (dm : ℕ) (u v : Fin dm → ℝ) : ℝ := ∑ i, u i * v i

/-- Modelled from the spec: the score the flat index assigns a stored
vector `w` for a query `q` - cosine similarity, negated euclidean
distance, or the raw inner product, all oriented larger-is-better. For a
zero vector the Lean convention `x / 0 = 0` keeps the cosine score in
range. -/
noncomputable def metricScore (dm : ℕ) (m : Metric) (q w : Fin dm → ℝ) : ℝ :=
  match m with
  | .cosine => dotR dm q w / (Real.sqrt (dotR dm q q) * Real.sqrt (dotR dm w w))
  | .euclidean => -(Real.sqrt (∑ i, (q i - w i) ^ 2))
  | .dot_product => dotR dm q w

/-- Modelled from the spec: stable descending insertion by score - a
candidate goes after every earlier candidate with an equal or better
score, so ties keep insertion order. -/
noncomputable def insertByScore (x : UUID × ℝ) : List (UUID × ℝ) → List (UUID × ℝ)
  | [] => [x]
  | y :: ys => if y.2 < x.2 then x :: y :: ys else y :: insertByScore x ys

/-- Modelled from the spec: rank scored candidates by descending score
with ties in insertion order. -/
noncomputable def rankByScore : List (UUID × ℝ) → List (UUID × ℝ)
  | [] => []
  | x :: xs => insertByScore x (rankByScore xs)

/-- Modelled from the spec: `FlatIndex.search` - score every stored vector
against the query under the configured metric and return the top `k` by
score (all of them when `k` exceeds the count, none when `k = 0`). The
index stores `entries` in insertion order with fixed dimension `dm`. -/
noncomputable def flatSearch (dm : ℕ) (m : Metric) (entries : List (UUID × (Fin dm → ℝ)))
    (q : Fin dm → ℝ) (k : ℕ) : List (UUID × ℝ) :=
  (rankByScore (entries.map (fun p => (p.1, metricScore dm m q p.2)))).take k

/-! ### Association-list lemmas -/

theorem lookup_setKey_self (m : List (UUID × α)) (k : UUID) (v : α) :
    lookup (setKey m k v) k = some v := by
  induction m with
  | nil => simp [setKey, lookup]
  | cons p rest ih =>
    by_cases h : p.1 = k
    · simp [setKey, h, lookup]
    · simp [setKey, h, lookup, ih]

theorem lookup_setKey_ne (m : List (UUID × α)) (k : UUID) (v : α) (x : UUID)
    (h : x ≠ k) : lookup (setKey m k v) x = lookup m x := by
  have h2 : ¬ (k = x) := fun hk => h hk.symm
  induction m with
  | nil => simp [setKey, lookup, h2]
  | cons p rest ih =>
    by_cases hp : p.1 = k
    · subst hp
      simp [setKey, lookup, h2]
    · simp [setKey, hp, lookup, ih]

theorem lookup_setKey (m : List (UUID × α)) (k : UUID) (v : α) (x : UUID) :
    lookup (setKey m k v) x = if x = k then some v else lookup m x := by
  by_cases h : x = k
  · subst h; simp [lookup_setKey_self]
  · simp [h, lookup_setKey_ne m k v x h]

theorem lookup_eraseKey_self (m : List (UUID × α)) (k : UUID) :
    lookup (eraseKey m k) k = none := by
  induction m with
  | nil => simp [eraseKey, lookup]
  | cons p rest ih =>
    by_cases h : p.1 = k
    · simp [eraseKey, h, ih]
    · simp [eraseKey, h, lookup, ih]

theorem lookup_eraseKey_ne (m : List (UUID × α)) (k x : UUID) (h : x ≠ k) :
    lookup (eraseKey m k) x = lookup m x := by
  induction m with
  | nil => simp [eraseKey]
  | cons p rest ih =>
    by_cases hp : p.1 = k
    · subst hp
      have h2 : ¬ (p.1 = x) := fun hk => h (hk ▸ rfl)
      simp [eraseKey, lookup, ih, h2]
    · simp [eraseKey, hp, lookup, ih]

theorem lookup_eraseKey (m : List (UUID × α)) (k x : UUID) :
    lookup (eraseKey m k) x = if x = k then none else lookup m x := by
  by_cases h : x = k
  · subst h; simp [lookup_eraseKey_self]
  · simp [h, lookup_eraseKey_ne m k x h]

theorem mem_of_lookup_eq_some {m : List (UUID × α)} {k : UUID} {v : α}
    (h : lookup m k = some v) : (k, v) ∈ m := by
  induction m with
  | nil => simp [lookup] at h
  | cons p rest ih =>
    by_cases hp : p.1 = k
    · simp only [lookup, if_pos hp] at h
      have hv : p.2 = v := Option.some.inj h
      have hpk : p = (k, v) := by
        cases p
        simp at hp hv
        simp [hp, hv]
      exact List.mem_cons.mpr (Or.inl hpk.symm)
    · simp only [lookup, if_neg hp] at h
      exact List.mem_cons_of_mem _ (ih h)

theorem lookup_isSome_of_mem {m : List (UUID × α)} {k : UUID} {v : α}
    (h : (k, v) ∈ m) : (lookup m k).isSome := by
  induction m with
  | nil => simp at h
  | cons p rest ih =>
    rcases List.mem_cons.mp h with h1 | h1
    · simp [lookup, ← h1]
    · by_cases hp : p.1 = k
      · simp [lookup, hp]
      · simp only [lookup, if_neg hp]
        exact ih h1

theorem keys_setKey (m : List (UUID × α)) (k : UUID) (v : α) :
    (setKey m k v).map Prod.fst =
      if k ∈ m.map Prod.fst then m.map Prod.fst else m.map Prod.fst ++ [k] := by
  induction m with
  | nil => simp [setKey]
  | cons p rest ih =>
    by_cases hp : p.1 = k
    · simp [setKey, hp]
    · have hk : k ∈ (p :: rest).map Prod.fst ↔ k ∈ rest.map Prod.fst := by
        simp
        intro hpk
        exact absurd hpk.symm hp
      by_cases hmem : k ∈ rest.map Prod.fst
      · simp [setKey, hp, ih, hmem, hk.mpr hmem]
      · have hnk : ¬ k ∈ (p :: rest).map Prod.fst := fun hc => hmem (hk.mp hc)
        have h2 : ¬ (k = p.1) := fun hc => hp hc.symm
        simp [setKey, hp, ih, hmem, hnk, h2]

theorem keys_eraseKey (m : List (UUID × α)) (k : UUID) :
    (eraseKey m k).map Prod.fst = (m.map Prod.fst).filter (fun x => x ≠ k) := by
  induction m with
  | nil => simp [eraseKey]
  | cons p rest ih =>
    by_cases hp : p.1 = k
    · simp [eraseKey, hp, ih, List.filter]
    · simp [eraseKey, hp, ih, List.filter]

theorem keysNodup_setKey {m : List (UUID × α)} (k : UUID) (v : α)
    (h : keysNodup m) : keysNodup (setKey m k v) := by
  unfold keysNodup at h ⊢
  rw [keys_setKey]
  by_cases hmem : k ∈ m.map Prod.fst
  · simpa [hmem] using h
  · simp [hmem, List.nodup_append, h]

theorem keysNodup_eraseKey {m : List (UUID × α)} (k : UUID)
    (h : keysNodup m) : keysNodup (eraseKey m k) := by
  unfold keysNodup at h ⊢
  rw [keys_eraseKey]
  exact h.filter _

theorem mem_iff_lookup {m : List (UUID × α)} (h : keysNodup m) (k : UUID) (v : α) :
    (k, v) ∈ m ↔ lookup m k = some v := by
  constructor
  · intro hm
    induction m with
    | nil => simp at hm
    | cons p rest ih =>
      unfold keysNodup at h
      rw [List.map_cons, List.nodup_cons] at h
      rcases List.mem_cons.mp hm with h1 | h1
      · simp [lookup, ← h1]
      · by_cases hp : p.1 = k
        · exfalso
          exact h.1 (hp ▸ List.mem_map_of_mem Prod.fst h1)
        · simp only [lookup, if_neg hp]
          exact ih h.2 h1
  · exact mem_of_lookup_eq_some

/-! ### Structural lemmas about deletes -/

theorem delete_chunk_not_found (t : VectorStorage) (c : UUID)
    (h : lookup t.chunks c = none) : delete_chunk t c = (false, t) := by
  simp [delete_chunk, h]

theorem delete_chunk_libraries (t : VectorStorage) (c : UUID) :
    (delete_chunk t c).2.libraries = t.libraries := by
  unfold delete_chunk
  cases hc : lookup t.chunks c with
  | none => rfl
  | some chunk =>
    cases hd : lookup t.documents chunk.document_id with
    | none => simp [hd]
    | some document =>
      by_cases hmem : c ∈ document.chunk_ids <;> simp [hd, hmem]

theorem delete_chunk_chunks (t : VectorStorage) (c x : UUID) :
    lookup (delete_chunk t c).2.chunks x = if x = c then none else lookup t.chunks x := by
  unfold delete_chunk
  cases hc : lookup t.chunks c with
  | none =>
    by_cases hx : x = c
    · subst hx; simp [hc]
    · simp [hx]
  | some chunk =>
    cases hd : lookup t.documents chunk.document_id with
    | none => simp [hd, lookup_eraseKey]
    | some document =>
      by_cases hmem : c ∈ document.chunk_ids <;> simp [hd, hmem, lookup_eraseKey]

theorem delete_chunk_chunks_some {t : VectorStorage} {c x : UUID} {ch : Chunk}
    (h : lookup (delete_chunk t c).2.chunks x = some ch) : lookup t.chunks x = some ch := by
  rw [delete_chunk_chunks] at h
  by_cases hx : x = c
  · simp [hx] at h
  · simpa [hx] using h

theorem delete_chunk_documents_shape (t : VectorStorage) (c x : UUID) :
    lookup (delete_chunk t c).2.documents x = lookup t.documents x ∨
    ∃ doc ch, lookup t.chunks c = some ch ∧ ch.document_id = x ∧
      lookup t.documents x = some doc ∧
      lookup (delete_chunk t c).2.documents x =
        some { doc with chunk_ids := doc.chunk_ids.erase c } := by
  unfold delete_chunk
  cases hc : lookup t.chunks c with
  | none => exact Or.inl rfl
  | some chunk =>
    cases hd : lookup t.documents chunk.document_id with
    | none => left; simp [hd]
    | some document =>
      by_cases hmem : c ∈ document.chunk_ids
      · by_cases hx : x = chunk.document_id
        · subst hx
          right
          refine ⟨document, chunk, rfl, rfl, hd, ?_⟩
          simp [hd, hmem, lookup_setKey_self]
        · left
          simp [hd, hmem, lookup_setKey_ne _ _ _ _ hx]
      · left
        simp [hd, hmem]

theorem delete_chunk_documents_none (t : VectorStorage) (c x : UUID)
    (h : lookup t.documents x = none) :
    lookup (delete_chunk t c).2.documents x = none := by
  rcases delete_chunk_documents_shape t c x with h1 | ⟨doc, ch, _, _, h1, _⟩
  · rw [h1, h]
  · rw [h1] at h
    exact absurd h (by simp)

theorem delete_chunk_keeps (t : VectorStorage) (c k x : UUID) (doc : Document)
    (hd : lookup t.documents k = some doc) (hx : x ∈ doc.chunk_ids) :
    lookup (delete_chunk t c).2.chunks x = none ∨
    ∃ doc2, lookup (delete_chunk t c).2.documents k = some doc2 ∧ x ∈ doc2.chunk_ids := by
  by_cases hxc : x = c
  · left
    rw [delete_chunk_chunks]
    simp [hxc]
  · right
    rcases delete_chunk_documents_shape t c k with h1 | ⟨doc1, ch, _, _, hdoc1, h1⟩
    · exact ⟨doc, by rw [h1, hd], hx⟩
    · refine ⟨{ doc1 with chunk_ids := doc1.chunk_ids.erase c }, h1, ?_⟩
      have : doc1 = doc := by rw [hdoc1] at hd; exact Option.some.inj hd
      subst this
      exact List.mem_erase_of_ne hxc |>.mpr hx

theorem foldl_delete_chunk_chunks_none (l : List UUID) (t : VectorStorage) (x : UUID)
    (h : lookup t.chunks x = none) :
    lookup (l.foldl (fun u c => (delete_chunk u c).2) t).chunks x = none := by
  induction l generalizing t with
  | nil => simpa using h
  | cons c rest ih =>
    simp only [List.foldl_cons]
    apply ih
    rw [delete_chunk_chunks]
    by_cases hx : x = c <;> simp [hx, h]

theorem foldl_delete_chunk_chunks_mem (l : List UUID) (t : VectorStorage) (x : UUID)
    (h : x ∈ l) :
    lookup (l.foldl (fun u c => (delete_chunk u c).2) t).chunks x = none := by
  induction l generalizing t with
  | nil => simp at h
  | cons c rest ih =>
    simp only [List.foldl_cons]
    rcases List.mem_cons.mp h with h1 | h1
    · apply foldl_delete_chunk_chunks_none
      rw [delete_chunk_chunks]
      simp [h1]
    · exact ih _ h1

theorem foldl_delete_chunk_docs_none (l : List UUID) (t : VectorStorage) (x : UUID)
    (h : lookup t.documents x = none) :
    lookup (l.foldl (fun u c => (delete_chunk u c).2) t).documents x = none := by
  induction l generalizing t with
  | nil => simpa using h
  | cons c rest ih =>
    simp only [List.foldl_cons]
    exact ih _ (delete_chunk_documents_none _ _ _ h)

theorem foldl_delete_chunk_libraries (l : List UUID) (t : VectorStorage) :
    (l.foldl (fun u c => (delete_chunk u c).2) t).libraries = t.libraries := by
  induction l generalizing t with
  | nil => rfl
  | cons c rest ih =>
    simp only [List.foldl_cons]
    rw [ih, delete_chunk_libraries]

theorem foldl_delete_chunk_keeps (l : List UUID) (t : VectorStorage) (k x : UUID)
    (doc : Document) (hd : lookup t.documents k = some doc) (hx : x ∈ doc.chunk_ids) :
    lookup (l.foldl (fun u c => (delete_chunk u c).2) t).chunks x = none ∨
    ∃ doc2, lookup (l.foldl (fun u c => (delete_chunk u c).2) t).documents k = some doc2 ∧
      x ∈ doc2.chunk_ids := by
  induction l generalizing t doc with
  | nil => exact Or.inr ⟨doc, hd, hx⟩
  | cons c rest ih =>
    simp only [List.foldl_cons]
    rcases delete_chunk_keeps t c k x doc hd hx with h1 | ⟨doc2, hd2, hx2⟩
    · exact Or.inl (foldl_delete_chunk_chunks_none _ _ _ h1)
    · exact ih _ doc2 hd2 hx2

theorem delete_document_not_found (t : VectorStorage) (d : UUID)
    (h : lookup t.documents d = none) : delete_document t d = (false, t) := by
  simp [delete_document, h]

theorem delete_document_fst (t : VectorStorage) (d : UUID) (document : Document)
    (h : lookup t.documents d = some document) : (delete_document t d).1 = true := by
  unfold delete_document
  rw [h]

theorem delete_document_chunks_eq (t : VectorStorage) (d : UUID) (document : Document)
    (h : lookup t.documents d = some document) :
    (delete_document t d).2.chunks =
      (document.chunk_ids.foldl (fun u c => (delete_chunk u c).2) t).chunks := by
  unfold delete_document
  rw [h]
  simp only []
  split
  · split <;> rfl
  · rfl

theorem delete_document_documents_eq (t : VectorStorage) (d : UUID) (document : Document)
    (h : lookup t.documents d = some document) :
    (delete_document t d).2.documents =
      eraseKey (document.chunk_ids.foldl (fun u c => (delete_chunk u c).2) t).documents d := by
  unfold delete_document
  rw [h]
  simp only []
  split
  · split <;> rfl
  · rfl

theorem delete_document_docs_self (t : VectorStorage) (d : UUID) :
    lookup (delete_document t d).2.documents d = none := by
  cases h : lookup t.documents d with
  | none => rw [delete_document_not_found t d h]; exact h
  | some document =>
    rw [delete_document_documents_eq t d document h, lookup_eraseKey_self]

theorem delete_document_docs_none (t : VectorStorage) (d x : UUID)
    (h : lookup t.documents x = none) :
    lookup (delete_document t d).2.documents x = none := by
  cases hd : lookup t.documents d with
  | none => rw [delete_document_not_found t d hd]; exact h
  | some document =>
    rw [delete_document_documents_eq t d document hd, lookup_eraseKey]
    by_cases hx : x = d
    · simp [hx]
    · simp [hx]
      exact foldl_delete_chunk_docs_none _ _ _ h

theorem delete_document_chunks_none (t : VectorStorage) (d x : UUID)
    (h : lookup t.chunks x = none) :
    lookup (delete_document t d).2.chunks x = none := by
  cases hd : lookup t.documents d with
  | none => rw [delete_document_not_found t d hd]; exact h
  | some document =>
    rw [delete_document_chunks_eq t d document hd]
    exact foldl_delete_chunk_chunks_none _ _ _ h

theorem delete_document_keeps (t : VectorStorage) (d k x : UUID) (doc : Document)
    (hd : lookup t.documents k = some doc) (hx : x ∈ doc.chunk_ids) :
    lookup (delete_document t d).2.chunks x = none ∨
    ∃ doc2, lookup (delete_document t d).2.documents k = some doc2 ∧ x ∈ doc2.chunk_ids := by
  cases hdd : lookup t.documents d with
  | none =>
    rw [delete_document_not_found t d hdd]
    exact Or.inr ⟨doc, hd, hx⟩
  | some document =>
    by_cases hkd : k = d
    · subst hkd
      left
      have hsame : document = doc := by rw [hdd] at hd; exact Option.some.inj hd
      rw [delete_document_chunks_eq t k document hdd]
      exact foldl_delete_chunk_chunks_mem _ _ _ (hsame ▸ hx)
    · rcases foldl_delete_chunk_keeps document.chunk_ids t k x doc hd hx with h1 | ⟨doc2, hd2, hx2⟩
      · left
        rw [delete_document_chunks_eq t d document hdd]
        exact h1
      · right
        refine ⟨doc2, ?_, hx2⟩
        rw [delete_document_documents_eq t d document hdd, lookup_eraseKey_ne _ _ _ hkd]
        exact hd2

theorem foldl_delete_document_docs_none (l : List UUID) (t : VectorStorage) (x : UUID)
    (h : lookup t.documents x = none) :
    lookup (l.foldl (fun u i => (delete_document u i).2) t).documents x = none := by
  induction l generalizing t with
  | nil => simpa using h
  | cons d rest ih =>
    simp only [List.foldl_cons]
    exact ih _ (delete_document_docs_none t d x h)

theorem foldl_delete_document_chunks_none (l : List UUID) (t : VectorStorage) (x : UUID)
    (h : lookup t.chunks x = none) :
    lookup (l.foldl (fun u i => (delete_document u i).2) t).chunks x = none := by
  induction l generalizing t with
  | nil => simpa using h
  | cons d rest ih =>
    simp only [List.foldl_cons]
    exact ih _ (delete_document_chunks_none t d x h)

theorem delete_library_fst (s : VectorStorage) (L : UUID) (lib : Library)
    (h : lookup s.libraries L = some lib) : (delete_library s L).1 = true := by
  unfold delete_library
  rw [h]

theorem delete_library_libraries (s : VectorStorage) (L : UUID) (lib : Library)
    (h : lookup s.libraries L = some lib) :
    (delete_library s L).2.libraries =
      eraseKey (lib.document_ids.foldl (fun u i => (delete_document u i).2) s).libraries L := by
  unfold delete_library
  rw [h]

theorem delete_library_documents (s : VectorStorage) (L : UUID) (lib : Library)
    (h : lookup s.libraries L = some lib) :
    (delete_library s L).2.documents =
      (lib.document_ids.foldl (fun u i => (delete_document u i).2) s).documents := by
  unfold delete_library
  rw [h]

theorem delete_library_chunks (s : VectorStorage) (L : UUID) (lib : Library)
    (h : lookup s.libraries L = some lib) :
    (delete_library s L).2.chunks =
      (lib.document_ids.foldl (fun u i => (delete_document u i).2) s).chunks := by
  unfold delete_library
  rw [h]

theorem foldl_delete_document_cascade (s : VectorStorage) (l : List UUID) (t : VectorStorage)
    (H : ∀ d ∈ l, ∀ doc, lookup s.documents d = some doc → ∀ x ∈ doc.chunk_ids,
      lookup t.chunks x = none ∨
      ∃ doc2, lookup t.documents d = some doc2 ∧ x ∈ doc2.chunk_ids) :
    (∀ d ∈ l, lookup (l.foldl (fun u i => (delete_document u i).2) t).documents d = none) ∧
    (∀ d ∈ l, ∀ doc, lookup s.documents d = some doc → ∀ x ∈ doc.chunk_ids,
      lookup (l.foldl (fun u i => (delete_document u i).2) t).chunks x = none) := by
  induction l generalizing t with
  | nil => exact ⟨by simp, by simp⟩
  | cons d rest ih =>
    simp only [List.foldl_cons]
    have H2 : ∀ d2 ∈ rest, ∀ doc, lookup s.documents d2 = some doc → ∀ x ∈ doc.chunk_ids,
        lookup (delete_document t d).2.chunks x = none ∨
        ∃ doc2, lookup (delete_document t d).2.documents d2 = some doc2 ∧ x ∈ doc2.chunk_ids := by
      intro d2 hd2 doc hdoc x hx
      rcases H d2 (List.mem_cons_of_mem _ hd2) doc hdoc x hx with h1 | ⟨doc2, hdd2, hx2⟩
      · exact Or.inl (delete_document_chunks_none t d x h1)
      · exact delete_document_keeps t d d2 x doc2 hdd2 hx2
    obtain ⟨ihd, ihc⟩ := ih (delete_document t d).2 H2
    constructor
    · intro d2 hd2
      rcases List.mem_cons.mp hd2 with h1 | h1
      · subst h1
        exact foldl_delete_document_docs_none rest _ _ (delete_document_docs_self t d2)
      · exact ihd d2 h1
    · intro d2 hd2 doc hdoc x hx
      rcases List.mem_cons.mp hd2 with h1 | h1
      · subst h1
        rcases H d2 (List.mem_cons_self _ _) doc hdoc x hx with h2 | ⟨doc2, hdd2, hx2⟩
        · exact foldl_delete_document_chunks_none rest _ _ (delete_document_chunks_none t d2 x h2)
        · rcases delete_document_keeps t d2 d2 x doc2 hdd2 hx2 with h3 | ⟨doc3, hd3, _⟩
          · exact foldl_delete_document_chunks_none rest _ _ h3
          · exact absurd (delete_document_docs_self t d2 ▸ hd3) (by simp)
      · exact ihc d2 h1 doc hdoc x hx

/-- C1: for every stored library, `delete_library` succeeds (returns `True`)
and cascades depth-first: afterwards the library, every document in its
`document_ids` list, and every chunk listed by any of those documents
returns the absence signal (`None`) from the corresponding `get`. -/
theorem C1_delete_library_cascades (s : VectorStorage) (L : UUID) (lib : Library)
    (h : lookup s.libraries L = some lib) :
    (delete_library s L).1 = true ∧
    get_library (delete_library s L).2 L = none ∧
    (∀ d ∈ lib.document_ids, get_document (delete_library s L).2 d = none) ∧
    (∀ d ∈ lib.document_ids, ∀ doc, get_document s d = some doc →
      ∀ c ∈ doc.chunk_ids, get_chunk (delete_library s L).2 c = none) := by
  have base : ∀ d ∈ lib.document_ids, ∀ doc, lookup s.documents d = some doc →
      ∀ x ∈ doc.chunk_ids, lookup s.chunks x = none ∨
      ∃ doc2, lookup s.documents d = some doc2 ∧ x ∈ doc2.chunk_ids :=
    fun d _ doc hdoc x hx => Or.inr ⟨doc, hdoc, hx⟩
  obtain ⟨hdocs, hchunks⟩ := foldl_delete_document_cascade s lib.document_ids s base
  refine ⟨delete_library_fst s L lib h, ?_, ?_, ?_⟩
  · unfold get_library
    rw [delete_library_libraries s L lib h, lookup_eraseKey_self]
  · intro d hd
    unfold get_document
    rw [delete_library_documents s L lib h]
    exact hdocs d hd
  · intro d hd doc hdoc c hc
    unfold get_chunk
    rw [delete_library_chunks s L lib h]
    exact hchunks d hd doc hdoc c hc

/-- Witness for C1 at a concrete one-library, one-document, one-chunk
store: the chunk reachable from the deleted library is gone. -/
theorem C1_delete_library_cascades_witness :
    get_chunk (delete_library
      ⟨[(1, ⟨1, "l", [2], [], .flat, [], 0⟩)],
       [(2, ⟨2, "d", [3], [], 1, 0⟩)],
       [(3, ⟨3, "c", [], [], 2, 0⟩)]⟩ 1).2 3 = none := by
  have h := C1_delete_library_cascades
    ⟨[(1, ⟨1, "l", [2], [], .flat, [], 0⟩)],
     [(2, ⟨2, "d", [3], [], 1, 0⟩)],
     [(3, ⟨3, "c", [], [], 2, 0⟩)]⟩ 1 ⟨1, "l", [2], [], .flat, [], 0⟩ (by decide)
  exact h.2.2.2 2 (by decide) ⟨2, "d", [3], [], 1, 0⟩ (by decide) 3 (by decide)

/-! ### Unknown-id and duplicate-id behaviour (C5) -/

/-- C5: uniformly across libraries, documents and chunks, `create` with an
already-used id raises, `update` on an unknown id raises, `delete` on an
unknown id signals rejection by returning `False` with the store unchanged,
and `get` on an unknown id returns the absence signal `None` rather than
failing. -/
theorem C5_unknown_and_duplicate_ids (s : VectorStorage)
    (lib1 lib2 : Library) (doc1 doc2 : Document) (ch1 ch2 : Chunk) (i j k : UUID)
    (h1 : (lookup s.libraries lib1.id).isSome)
    (h2 : (lookup s.documents doc1.id).isSome)
    (h3 : (lookup s.chunks ch1.id).isSome)
    (h4 : lookup s.libraries i = none)
    (h5 : lookup s.documents j = none)
    (h6 : lookup s.chunks k = none) :
    (∃ e, create_library s lib1 = .error e) ∧
    (∃ e, create_document s doc1 = .error e) ∧
    (∃ e, create_chunk s ch1 = .error e) ∧
    (∃ e, update_library s i lib2 = .error e) ∧
    (∃ e, update_document s j doc2 = .error e) ∧
    (∃ e, update_chunk s k ch2 = .error e) ∧
    delete_library s i = (false, s) ∧
    delete_document s j = (false, s) ∧
    delete_chunk s k = (false, s) ∧
    get_library s i = none ∧
    get_document s j = none ∧
    get_chunk s k = none := by
  refine ⟨?_, ?_, ?_, ?_, ?_, ?_, ?_, ?_, ?_, ?_, ?_, ?_⟩
  · exact ⟨"Library with this ID already exists", by simp [create_library, h1]⟩
  · exact ⟨"Document with this ID already exists", by simp [create_document, h2]⟩
  · exact ⟨"Chunk with this ID already exists", by simp [create_chunk, h3]⟩
  · exact ⟨"Library with this ID not found", by simp [update_library, h4]⟩
  · exact ⟨"Document with this ID not found", by simp [update_document, h5]⟩
  · exact ⟨"Chunk with this ID not found", by simp [update_chunk, h6]⟩
  · simp [delete_library, h4]
  · simp [delete_document, h5]
  · simp [delete_chunk, h6]
  · exact h4
  · exact h5
  · exact h6

/-- Witness for C5 at a concrete store holding library 1, document 2 and
chunk 3, with 10, 11, 12 unknown. -/
theorem C5_unknown_and_duplicate_ids_witness :
    get_chunk (⟨[(1, ⟨1, "l", [2], [], .flat, [], 0⟩)],
       [(2, ⟨2, "d", [3], [], 1, 0⟩)],
       [(3, ⟨3, "c", [], [], 2, 0⟩)]⟩ : VectorStorage) 12 = none := by
  have h := C5_unknown_and_duplicate_ids
    ⟨[(1, ⟨1, "l", [2], [], .flat, [], 0⟩)],
     [(2, ⟨2, "d", [3], [], 1, 0⟩)],
     [(3, ⟨3, "c", [], [], 2, 0⟩)]⟩
    ⟨1, "l2", [], [], .flat, [], 0⟩ ⟨1, "l2", [], [], .flat, [], 0⟩
    ⟨2, "d2", [], [], 1, 0⟩ ⟨2, "d2", [], [], 1, 0⟩
    ⟨3, "c2", [], [], 2, 0⟩ ⟨3, "c2", [], [], 2, 0⟩
    10 11 12 (by decide) (by decide) (by decide) (by decide) (by decide) (by decide)
  exact h.2.2.2.2.2.2.2.2.2.2.2

/-! ### Batch validation (C2) -/

theorem chunks_batch_validate_isSome {s : VectorStorage} {cs : List Chunk} {c : Chunk}
    (hmem : c ∈ cs)
    (hbad : (lookup s.chunks c.id).isSome ∨ (lookup s.documents c.document_id).isNone) :
    (chunks_batch_validate s cs).isSome := by
  induction cs with
  | nil => simp at hmem
  | cons c0 rest ih =>
    unfold chunks_batch_validate
    by_cases ha : (lookup s.chunks c0.id).isSome
    · simp [ha]
    · by_cases hb : (lookup s.documents c0.document_id).isNone
      · simp [ha, hb]
      · rcases List.mem_cons.mp hmem with h1 | h1
        · subst h1
          rcases hbad with hbad | hbad
          · exact absurd hbad ha
          · exact absurd hbad hb
        · simp [ha, hb]
          exact ih h1

theorem documents_batch_validate_isSome {s : VectorStorage} {ds : List Document} {dd : Document}
    (hmem : dd ∈ ds)
    (hbad : (lookup s.documents dd.id).isSome ∨ (lookup s.libraries dd.library_id).isNone) :
    (documents_batch_validate s ds).isSome := by
  induction ds with
  | nil => simp at hmem
  | cons d0 rest ih =>
    unfold documents_batch_validate
    by_cases ha : (lookup s.documents d0.id).isSome
    · simp [ha]
    · by_cases hb : (lookup s.libraries d0.library_id).isNone
      · simp [ha, hb]
      · rcases List.mem_cons.mp hmem with h1 | h1
        · subst h1
          rcases hbad with hbad | hbad
          · exact absurd hbad ha
          · exact absurd hbad hb
        · simp [ha, hb]
          exact ih h1

/-- C2: the batch creates validate every element against the pre-call
state before mutating anything - if any element's id already exists or any
element's parent is missing, the call raises and the storage state is
exactly what it was before the call. -/
theorem C2_batch_creates_all_or_nothing (s : VectorStorage) (cs : List Chunk)
    (ds : List Document)
    (hc : ∃ c ∈ cs, (lookup s.chunks c.id).isSome ∨ (lookup s.documents c.document_id).isNone)
    (hd : ∃ dd ∈ ds,
      (lookup s.documents dd.id).isSome ∨ (lookup s.libraries dd.library_id).isNone) :
    (∃ e, create_chunks_batch s cs = .error e) ∧
    applyOp s (.createChunksBatch cs) = s ∧
    (∃ e, create_documents_batch s ds = .error e) ∧
    applyOp s (.createDocsBatch ds) = s := by
  obtain ⟨c, hcm, hcb⟩ := hc
  obtain ⟨dd, hdm, hdb⟩ := hd
  have hv1 := chunks_batch_validate_isSome hcm hcb
  have hv2 := documents_batch_validate_isSome hdm hdb
  cases he1 : chunks_batch_validate s cs with
  | none => rw [he1] at hv1; simp at hv1
  | some e1 =>
    cases he2 : documents_batch_validate s ds with
    | none => rw [he2] at hv2; simp at hv2
    | some e2 =>
      refine ⟨⟨e1, ?_⟩, ?_, ⟨e2, ?_⟩, ?_⟩
      · simp [create_chunks_batch, he1]
      · simp [applyOp, create_chunks_batch, he1]
      · simp [create_documents_batch, he2]
      · simp [applyOp, create_documents_batch, he2]

/-- Witness for C2: a batch containing a chunk whose id 3 is taken and a
batch containing a document whose parent library 9 is missing both fail. -/
theorem C2_batch_creates_all_or_nothing_witness :
    applyOp (⟨[(1, ⟨1, "l", [2], [], .flat, [], 0⟩)],
       [(2, ⟨2, "d", [3], [], 1, 0⟩)],
       [(3, ⟨3, "c", [], [], 2, 0⟩)]⟩ : VectorStorage)
      (.createChunksBatch [⟨3, "x", [], [], 2, 0⟩]) =
    ⟨[(1, ⟨1, "l", [2], [], .flat, [], 0⟩)],
       [(2, ⟨2, "d", [3], [], 1, 0⟩)],
       [(3, ⟨3, "c", [], [], 2, 0⟩)]⟩ := by
  have h := C2_batch_creates_all_or_nothing
    ⟨[(1, ⟨1, "l", [2], [], .flat, [], 0⟩)],
     [(2, ⟨2, "d", [3], [], 1, 0⟩)],
     [(3, ⟨3, "c", [], [], 2, 0⟩)]⟩
    [⟨3, "x", [], [], 2, 0⟩] [⟨7, "y", [], [], 9, 0⟩]
    ⟨⟨3, "x", [], [], 2, 0⟩, by decide, by decide⟩
    ⟨⟨7, "y", [], [], 9, 0⟩, by decide, by decide⟩
  exact h.2.1

/-! ### Index variant tags (C7) -/

/-- C7: the library index variant tag has exactly two values - `flat`,
the exact index, and `hnsw`, the tag string selecting this repository
clustered IVF index - and no other tag string is accepted when a library
is created. -/
theorem C7_index_type_two_variants :
    (∀ t : IndexType, t = IndexType.flat ∨ t = IndexType.hnsw) ∧
    IndexType.flat ≠ IndexType.hnsw ∧
    (∀ str : String, (indexTypeOfString str).isSome ↔ str = "flat" ∨ str = "hnsw") := by
  refine ⟨fun t => by cases t <;> simp, by decide, fun str => ?_⟩
  unfold indexTypeOfString
  by_cases h1 : str = "flat"
  · simp [h1]
  · by_cases h2 : str = "hnsw" <;> simp [h1, h2]

/-! ### Empty filter groups (C8) -/

/-- C8 evaluated at the failing input: `FilterGroup()` - construction with
no arguments - succeeds and produces a group with an empty filter list,
because pydantic does not run the `validate_filters_not_empty` validator
on the `default_factory` value; only an explicitly passed empty list is
rejected. -/
theorem C8_empty_group_constructible_via_defaults :
    mkFilterGroup none none = .ok (.group .and []) ∧
    (∃ e, mkFilterGroup none (some []) = .error e) :=
  ⟨rfl, ⟨_, rfl⟩⟩

/-! ### Search-filter date validation (C10) -/

/-- C10 evaluated on the code: `SearchFilters` construction never rejects
any combination of dates - in particular `created_after = 2`,
`created_before = 1` is accepted - because `validate_dates` reads the
field currently being validated from `info.data`, where it is never
present. -/
theorem C10_date_validation_never_rejects :
    (∀ m a b d, ∃ f, mkSearchFilters m a b d = .ok f) ∧
    mkSearchFilters none (some 2) (some 1) none = .ok ⟨none, some 2, some 1, none⟩ := by
  refine ⟨fun m a b d => ?_, rfl⟩
  cases a <;> cases b <;> exact ⟨_, rfl⟩

/-! ### Embedding lengths at the store (C4) -/

/-- C4 as amended: the entity store accepts chunk creates and updates with
no condition on the embedding at all - in particular a chunk whose
embedding length differs from every other embedding in its library is
stored, not rejected. -/
theorem C4_store_ignores_embedding_length (s : VectorStorage) (c c2 : Chunk) (cid : UUID)
    (doc : Document)
    (h1 : lookup s.chunks c.id = none)
    (h2 : lookup s.documents c.document_id = some doc)
    (h3 : (lookup s.chunks cid).isSome) :
    (∃ s2, create_chunk s c = .ok s2 ∧ lookup s2.chunks c.id = some c) ∧
    (∃ s2, update_chunk s cid c2 = .ok s2 ∧ lookup s2.chunks cid = some c2) := by
  constructor
  · by_cases hmem : c.id ∈ doc.chunk_ids
    · refine ⟨{ s with chunks := setKey s.chunks c.id c }, ?_, ?_⟩
      · simp [create_chunk, h1, h2, hmem]
      · simp [lookup_setKey_self]
    · refine ⟨{ s with documents := setKey s.documents c.document_id ({ doc with chunk_ids := doc.chunk_ids ++ [c.id] }), chunks := setKey s.chunks c.id c }, ?_, ?_⟩
      · simp [create_chunk, h1, h2, hmem]
      · simp [lookup_setKey_self]
  · have h4 : ¬ (lookup s.chunks cid).isNone := by
      cases hc : lookup s.chunks cid
      · rw [hc] at h3; simp at h3
      · simp
    refine ⟨{ s with chunks := setKey s.chunks cid c2 }, ?_, ?_⟩
    · simp [update_chunk, h4]
    · simp [lookup_setKey_self]

/-- Counterexample for C4 as stated: in a store whose library 1 reaches a
chunk with a length-3 embedding, creating a chunk with a length-2
embedding under the same document succeeds and changes the store, with
both embedding lengths stored side by side. -/
theorem C4_counterexample :
    ∃ s2, create_chunk
      (⟨[(1, ⟨1, "l", [2], [], .flat, [], 0⟩)],
        [(2, ⟨2, "d", [3], [], 1, 0⟩)],
        [(3, ⟨3, "c", [1, 2, 3], [], 2, 0⟩)]⟩ : VectorStorage)
      ⟨4, "c2", [1, 2], [], 2, 0⟩ = .ok s2 ∧
      s2 ≠ ⟨[(1, ⟨1, "l", [2], [], .flat, [], 0⟩)],
        [(2, ⟨2, "d", [3], [], 1, 0⟩)],
        [(3, ⟨3, "c", [1, 2, 3], [], 2, 0⟩)]⟩ ∧
      (∃ ch, lookup s2.chunks 3 = some ch ∧ ch.embedding.length = 3) ∧
      (∃ ch, lookup s2.chunks 4 = some ch ∧ ch.embedding.length = 2) := by
  refine ⟨_, rfl, by decide, ?_, ?_⟩
  · exact ⟨⟨3, "c", [1, 2, 3], [], 2, 0⟩, by decide, by decide⟩
  · exact ⟨⟨4, "c2", [1, 2], [], 2, 0⟩, by decide, by decide⟩

/-- Witness for the amended C4 at a concrete store: the mismatched-length
create is accepted. -/
theorem C4_store_ignores_embedding_length_witness :
    ∃ s2, create_chunk
      (⟨[(1, ⟨1, "l", [2], [], .flat, [], 0⟩)],
        [(2, ⟨2, "d", [3], [], 1, 0⟩)],
        [(3, ⟨3, "c", [1, 2, 3], [], 2, 0⟩)]⟩ : VectorStorage)
      ⟨5, "c3", [7], [], 2, 0⟩ = .ok s2 ∧
      lookup s2.chunks 5 = some ⟨5, "c3", [7], [], 2, 0⟩ := by
  have h := C4_store_ignores_embedding_length
    ⟨[(1, ⟨1, "l", [2], [], .flat, [], 0⟩)],
     [(2, ⟨2, "d", [3], [], 1, 0⟩)],
     [(3, ⟨3, "c", [1, 2, 3], [], 2, 0⟩)]⟩
    ⟨5, "c3", [7], [], 2, 0⟩ ⟨5, "c3", [7], [], 2, 0⟩ 3
    ⟨2, "d", [3], [], 1, 0⟩ (by decide) (by decide) (by decide)
  exact h.1

/-! ### Duplicate ids inside one batch (C9) -/

theorem WF_not_listed {s : VectorStorage} (hwf : WF s) {x : UUID}
    (hx : lookup s.chunks x = none) {d : UUID} {doc : Document}
    (hd : lookup s.documents d = some doc) : x ∉ doc.chunk_ids := by
  intro hmem
  obtain ⟨-, -, -, -, hdocs, -, -⟩ := hwf
  have hmemd : (d, doc) ∈ s.documents := mem_of_lookup_eq_some hd
  obtain ⟨q, hq, hq1, -⟩ := (hdocs (d, doc) hmemd).2.1 x hmem
  have hsome : (lookup s.chunks x).isSome := by
    have hqx : (x, q.2) ∈ s.chunks := by
      have hq2 : q = (x, q.2) := by
        cases q
        simp only at hq1
        simp [hq1]
      rw [← hq2]
      exact hq
    exact lookup_isSome_of_mem hqx
  rw [hx] at hsome
  simp at hsome

/-- C9: a batch of two chunks sharing one id (not stored before the call,
with every parent document present) succeeds; the later chunk's data is
what ends up stored under the id and the later chunk's parent document
lists the id exactly once. -/
theorem C9_batch_duplicate_ids_last_write_wins (s : VectorStorage) (c1 c2 : Chunk)
    (doc1 doc2 : Document)
    (hwf : WF s) (hid : c1.id = c2.id)
    (h1 : lookup s.chunks c1.id = none)
    (h2 : lookup s.documents c1.document_id = some doc1)
    (h3 : lookup s.documents c2.document_id = some doc2) :
    create_chunks_batch s [c1, c2] =
      .ok (insert_chunk_unchecked (insert_chunk_unchecked s c1) c2) ∧
    lookup (insert_chunk_unchecked (insert_chunk_unchecked s c1) c2).chunks c2.id = some c2 ∧
    ∃ doc3,
      lookup (insert_chunk_unchecked (insert_chunk_unchecked s c1) c2).documents
        c2.document_id = some doc3 ∧
      doc3.chunk_ids.count c2.id = 1 := by
  have hne1 : c1.id ∉ doc1.chunk_ids := WF_not_listed hwf h1 h2
  have hne2 : c1.id ∉ doc2.chunk_ids := WF_not_listed hwf h1 h3
  have h1b : lookup s.chunks c2.id = none := hid ▸ h1
  have hval : chunks_batch_validate s [c1, c2] = none := by
    simp [chunks_batch_validate, h1, h1b, h2, h3]
  have ht1 : insert_chunk_unchecked s c1 =
      { s with documents := setKey s.documents c1.document_id ({ doc1 with chunk_ids := doc1.chunk_ids ++ [c1.id] }), chunks := setKey s.chunks c1.id c1 } := by
    unfold insert_chunk_unchecked
    simp [h2, hne1]
  refine ⟨by simp [create_chunks_batch, hval], ?_⟩
  by_cases hp : c2.document_id = c1.document_id
  · have hlook : lookup (insert_chunk_unchecked s c1).documents c2.document_id =
        some { doc1 with chunk_ids := doc1.chunk_ids ++ [c1.id] } := by
      rw [ht1, hp]
      exact lookup_setKey_self _ _ _
    have hmem2 : c2.id ∈ ({ doc1 with chunk_ids := doc1.chunk_ids ++ [c1.id] } : Document).chunk_ids := by
      simp [← hid]
    have ht2 : insert_chunk_unchecked (insert_chunk_unchecked s c1) c2 =
        { insert_chunk_unchecked s c1 with chunks := setKey (insert_chunk_unchecked s c1).chunks c2.id c2 } := by
      conv_lhs => rw [insert_chunk_unchecked]
      simp [hlook, hmem2]
    rw [ht2]
    refine ⟨lookup_setKey_self _ _ _, ?_⟩
    refine ⟨{ doc1 with chunk_ids := doc1.chunk_ids ++ [c1.id] }, hlook, ?_⟩
    have : (doc1.chunk_ids ++ [c1.id]).count c2.id = 1 := by
      rw [← hid]
      rw [List.count_append]
      rw [List.count_eq_zero.mpr hne1]
      simp
    simpa using this
  · have hlook : lookup (insert_chunk_unchecked s c1).documents c2.document_id = some doc2 := by
      rw [ht1]
      show lookup (setKey s.documents c1.document_id _) c2.document_id = some doc2
      rw [lookup_setKey_ne _ _ _ _ hp]
      exact h3
    have hmem2 : c2.id ∉ doc2.chunk_ids := hid ▸ hne2
    have ht2 : insert_chunk_unchecked (insert_chunk_unchecked s c1) c2 =
        { insert_chunk_unchecked s c1 with documents := setKey (insert_chunk_unchecked s c1).documents c2.document_id ({ doc2 with chunk_ids := doc2.chunk_ids ++ [c2.id] }), chunks := setKey (insert_chunk_unchecked s c1).chunks c2.id c2 } := by
      conv_lhs => rw [insert_chunk_unchecked]
      simp [hlook, hmem2]
    rw [ht2]
    refine ⟨lookup_setKey_self _ _ _, ?_⟩
    refine ⟨{ doc2 with chunk_ids := doc2.chunk_ids ++ [c2.id] }, lookup_setKey_self _ _ _, ?_⟩
    have : (doc2.chunk_ids ++ [c2.id]).count c2.id = 1 := by
      rw [List.count_append]
      rw [List.count_eq_zero.mpr hmem2]
      simp
    simpa using this

/-- Witness for C9: two chunks with id 4 under the stored document 2; the
batch succeeds and the second chunk's text wins. -/
theorem C9_batch_duplicate_ids_last_write_wins_witness :
    lookup (insert_chunk_unchecked (insert_chunk_unchecked
      (⟨[(1, ⟨1, "l", [2], [], .flat, [], 0⟩)],
        [(2, ⟨2, "d", [3], [], 1, 0⟩)],
        [(3, ⟨3, "c", [], [], 2, 0⟩)]⟩ : VectorStorage)
      ⟨4, "first", [], [], 2, 0⟩) ⟨4, "second", [], [], 2, 0⟩).chunks 4 =
      some ⟨4, "second", [], [], 2, 0⟩ := by
  have h := C9_batch_duplicate_ids_last_write_wins
    ⟨[(1, ⟨1, "l", [2], [], .flat, [], 0⟩)],
     [(2, ⟨2, "d", [3], [], 1, 0⟩)],
     [(3, ⟨3, "c", [], [], 2, 0⟩)]⟩
    ⟨4, "first", [], [], 2, 0⟩ ⟨4, "second", [], [], 2, 0⟩
    ⟨2, "d", [3], [], 1, 0⟩ ⟨2, "d", [3], [], 1, 0⟩
    (by decide) (by decide) (by decide) (by decide) (by decide)
  exact h.2.1

/-! ### Well-formedness preservation (towards C3) -/

theorem isSome_lookup_setKey {m : List (UUID × α)} {x : UUID} (k : UUID) (v : α)
    (h : (lookup m x).isSome) : (lookup (setKey m k v) x).isSome := by
  rw [lookup_setKey]
  by_cases hx : x = k <;> simp [hx, h]

theorem WFL_delete_chunk (t : VectorStorage) (c : UUID) (h : WFL t) :
    WFL (delete_chunk t c).2 := by
  cases hc : lookup t.chunks c with
  | none =>
    have heq : (delete_chunk t c).2 = t := by rw [delete_chunk_not_found t c hc]
    rw [heq]
    exact h
  | some ch =>
    obtain ⟨hnl, hnd, hnc, hlib, hdoc, hdpar, hcpar⟩ := h
    have hpar := hcpar c ch hc
    cases hd : lookup t.documents ch.document_id with
    | none => rw [hd] at hpar; simp at hpar
    | some document =>
      have hdocok := hdoc ch.document_id document hd
      have hmem : c ∈ document.chunk_ids := hdocok.2.2 c ch hc rfl
      have hres : (delete_chunk t c).2 =
          { t with documents := setKey t.documents ch.document_id ({ document with chunk_ids := document.chunk_ids.erase c }), chunks := eraseKey t.chunks c } := by
        unfold delete_chunk
        simp [hc, hd, hmem]
      rw [hres]
      refine ⟨hnl, keysNodup_setKey _ _ hnd, keysNodup_eraseKey _ hnc, ?_, ?_, ?_, ?_⟩
      · intro l lib hll
        obtain ⟨hlnd, hlfwd, hlbwd⟩ := hlib l lib hll
        refine ⟨hlnd, ?_, ?_⟩
        · intro d hdm
          obtain ⟨doc1, hdoc1, hdoc1l⟩ := hlfwd d hdm
          by_cases hdp : d = ch.document_id
          · subst hdp
            refine ⟨{ document with chunk_ids := document.chunk_ids.erase c }, ?_, ?_⟩
            · simp [lookup_setKey_self]
            · have : doc1 = document := Option.some.inj (hdoc1.symm.trans hd)
              simp [← this, hdoc1l]
          · exact ⟨doc1, by rw [lookup_setKey_ne _ _ _ _ hdp]; exact hdoc1, hdoc1l⟩
        · intro k doc1 hk hkl
          by_cases hdp : k = ch.document_id
          · subst hdp
            rw [lookup_setKey_self] at hk
            have : doc1 = { document with chunk_ids := document.chunk_ids.erase c } :=
              (Option.some.inj hk).symm
            subst this
            exact hlbwd _ document hd (by simpa using hkl)
          · rw [lookup_setKey_ne _ _ _ _ hdp] at hk
            exact hlbwd _ doc1 hk hkl
      · intro d doc1 hk
        by_cases hdp : d = ch.document_id
        · subst hdp
          rw [lookup_setKey_self] at hk
          have : doc1 = { document with chunk_ids := document.chunk_ids.erase c } :=
            (Option.some.inj hk).symm
          subst this
          refine ⟨hdocok.1.erase c, ?_, ?_⟩
          · intro x hx
            obtain ⟨hxc, hxm⟩ := (List.Nodup.mem_erase_iff hdocok.1).mp hx
            obtain ⟨ch1, hch1, hch1d⟩ := hdocok.2.1 x hxm
            exact ⟨ch1, by rw [lookup_eraseKey_ne _ _ _ hxc]; exact hch1, hch1d⟩
          · intro k ch1 hk1 hk1d
            have hkc : k ≠ c := by
              intro hkc
              subst hkc
              rw [lookup_eraseKey_self] at hk1
              exact Option.noConfusion hk1
            rw [lookup_eraseKey_ne _ _ _ hkc] at hk1
            have := hdocok.2.2 k ch1 hk1 (by simpa using hk1d)
            exact (List.mem_erase_of_ne hkc).mpr this
        · rw [lookup_setKey_ne _ _ _ _ hdp] at hk
          obtain ⟨hn1, hf1, hb1⟩ := hdoc d doc1 hk
          refine ⟨hn1, ?_, ?_⟩
          · intro x hx
            obtain ⟨ch1, hch1, hch1d⟩ := hf1 x hx
            have hxc : x ≠ c := by
              intro hxc
              subst hxc
              have hee : ch1 = ch := Option.some.inj (hch1.symm.trans hc)
              subst hee
              exact absurd hch1d.symm hdp
            exact ⟨ch1, by rw [lookup_eraseKey_ne _ _ _ hxc]; exact hch1, hch1d⟩
          · intro k ch1 hk1 hk1d
            have hkc : k ≠ c := by
              intro hkc
              subst hkc
              rw [lookup_eraseKey_self] at hk1
              exact Option.noConfusion hk1
            rw [lookup_eraseKey_ne _ _ _ hkc] at hk1
            exact hb1 k ch1 hk1 hk1d
      · intro d doc1 hk
        by_cases hdp : d = ch.document_id
        · subst hdp
          rw [lookup_setKey_self] at hk
          have : doc1 = { document with chunk_ids := document.chunk_ids.erase c } :=
            (Option.some.inj hk).symm
          subst this
          exact hdpar _ document hd
        · rw [lookup_setKey_ne _ _ _ _ hdp] at hk
          exact hdpar d doc1 hk
      · intro k ch1 hk1
        have hkc : k ≠ c := by
          intro hkc
          subst hkc
          rw [lookup_eraseKey_self] at hk1
          exact Option.noConfusion hk1
        rw [lookup_eraseKey_ne _ _ _ hkc] at hk1
        exact isSome_lookup_setKey _ _ (hcpar k ch1 hk1)

theorem WFL_foldl_delete_chunk (l : List UUID) (t : VectorStorage) (h : WFL t) :
    WFL (l.foldl (fun u c => (delete_chunk u c).2) t) := by
  induction l generalizing t with
  | nil => exact h
  | cons c rest ih =>
    simp only [List.foldl_cons]
    exact ih _ (WFL_delete_chunk t c h)

theorem foldl_delete_chunk_chunks_some (l : List UUID) (t : VectorStorage) {x : UUID}
    {ch : Chunk}
    (h : lookup (l.foldl (fun u c => (delete_chunk u c).2) t).chunks x = some ch) :
    lookup t.chunks x = some ch := by
  induction l generalizing t with
  | nil => simpa using h
  | cons c rest ih =>
    simp only [List.foldl_cons] at h
    exact delete_chunk_chunks_some (ih _ h)

theorem delete_chunk_documents_map (t : VectorStorage) (c x : UUID) :
    (lookup (delete_chunk t c).2.documents x).map Document.library_id =
      (lookup t.documents x).map Document.library_id := by
  rcases delete_chunk_documents_shape t c x with h1 | ⟨doc, ch, -, -, h1, h2⟩
  · rw [h1]
  · rw [h1, h2]
    rfl

theorem foldl_delete_chunk_documents_map (l : List UUID) (t : VectorStorage) (x : UUID) :
    (lookup (l.foldl (fun u c => (delete_chunk u c).2) t).documents x).map Document.library_id =
      (lookup t.documents x).map Document.library_id := by
  induction l generalizing t with
  | nil => rfl
  | cons c rest ih =>
    simp only [List.foldl_cons]
    rw [ih _, delete_chunk_documents_map]

theorem delete_document_libraries_eq (t : VectorStorage) (d : UUID) (document : Document)
    (library : Library)
    (hd : lookup t.documents d = some document)
    (hL : lookup t.libraries document.library_id = some library)
    (hdmem : d ∈ library.document_ids) :
    (delete_document t d).2.libraries =
      setKey (document.chunk_ids.foldl (fun u c => (delete_chunk u c).2) t).libraries
        document.library_id
        ({ library with document_ids := library.document_ids.erase d }) := by
  have hL2 : lookup
      (document.chunk_ids.foldl (fun u c => (delete_chunk u c).2) t).libraries
      document.library_id = some library := by
    rw [foldl_delete_chunk_libraries]
    exact hL
  unfold delete_document
  rw [hd]
  simp [hL2, hdmem]

theorem WFL_delete_document (t : VectorStorage) (d : UUID) (h : WFL t) :
    WFL (delete_document t d).2 := by
  cases hd : lookup t.documents d with
  | none =>
    have heq : (delete_document t d).2 = t := by rw [delete_document_not_found t d hd]
    rw [heq]
    exact h
  | some document =>
    have hu : WFL (document.chunk_ids.foldl (fun u c => (delete_chunk u c).2) t) :=
      WFL_foldl_delete_chunk _ _ h
    obtain ⟨hnl, hnd, hnc, hlib, hdoc, hdpar, hcpar⟩ := h
    have hLsome := hdpar d document hd
    cases hL : lookup t.libraries document.library_id with
    | none => rw [hL] at hLsome; simp at hLsome
    | some library =>
      have hdmem : d ∈ library.document_ids := (hlib _ library hL).2.2 d document hd rfl
      obtain ⟨hunl, hund, hunc, hulib, hudoc, hudpar, hucpar⟩ := hu
      have hlibs := foldl_delete_chunk_libraries document.chunk_ids t
      have hLu : lookup
          (document.chunk_ids.foldl (fun u c => (delete_chunk u c).2) t).libraries
          document.library_id = some library := by rw [hlibs]; exact hL
      have hulibok := hulib _ library hLu
      -- no chunk in the fold state refers to d
      have hnochunk : ∀ k ch,
          lookup (document.chunk_ids.foldl (fun u c => (delete_chunk u c).2) t).chunks k =
            some ch → ch.document_id ≠ d := by
        intro k ch hk hkd
        have hkt := foldl_delete_chunk_chunks_some document.chunk_ids t hk
        have hkmem := (hdoc d document hd).2.2 k ch hkt hkd
        have := foldl_delete_chunk_chunks_mem document.chunk_ids t k hkmem
        rw [this] at hk
        exact Option.noConfusion hk
      have hLeq := delete_document_libraries_eq t d document library hd hL hdmem
      have hDeq := delete_document_documents_eq t d document hd
      have hCeq := delete_document_chunks_eq t d document hd
      refine ⟨?_, ?_, ?_, ?_, ?_, ?_, ?_⟩
      · unfold keysNodup
        rw [hLeq]
        exact keysNodup_setKey _ _ hunl
      · unfold keysNodup
        rw [hDeq]
        exact keysNodup_eraseKey _ hund
      · unfold keysNodup
        rw [hCeq]
        exact hunc
      · intro l2 lib2 hl2
        rw [hLeq] at hl2
        by_cases hl2L : l2 = document.library_id
        · subst hl2L
          rw [lookup_setKey_self] at hl2
          have hlib2 : lib2 = { library with document_ids := library.document_ids.erase d } :=
            (Option.some.inj hl2).symm
          subst hlib2
          refine ⟨hulibok.1.erase d, ?_, ?_⟩
          · intro d2 hd2
            obtain ⟨hd2d, hd2m⟩ := (List.Nodup.mem_erase_iff hulibok.1).mp hd2
            obtain ⟨doc2, hdoc2, hdoc2l⟩ := hulibok.2.1 d2 hd2m
            refine ⟨doc2, ?_, hdoc2l⟩
            rw [hDeq, lookup_eraseKey_ne _ _ _ hd2d]
            exact hdoc2
          · intro k doc2 hk hkl
            rw [hDeq] at hk
            have hkd : k ≠ d := by
              intro hkd
              subst hkd
              rw [lookup_eraseKey_self] at hk
              exact Option.noConfusion hk
            rw [lookup_eraseKey_ne _ _ _ hkd] at hk
            exact (List.mem_erase_of_ne hkd).mpr (hulibok.2.2 k doc2 hk hkl)
        · rw [lookup_setKey_ne _ _ _ _ hl2L] at hl2
          obtain ⟨hn2, hf2, hb2⟩ := hulib l2 lib2 hl2
          refine ⟨hn2, ?_, ?_⟩
          · intro d2 hd2
            obtain ⟨doc2, hdoc2, hdoc2l⟩ := hf2 d2 hd2
            have hd2d : d2 ≠ d := by
              intro hdd
              subst hdd
              have hmap := foldl_delete_chunk_documents_map document.chunk_ids t d2
              rw [hdoc2, hd] at hmap
              simp at hmap
              exact hl2L (hdoc2l ▸ hmap ▸ rfl)
            refine ⟨doc2, ?_, hdoc2l⟩
            rw [hDeq, lookup_eraseKey_ne _ _ _ hd2d]
            exact hdoc2
          · intro k doc2 hk hkl
            rw [hDeq] at hk
            have hkd : k ≠ d := by
              intro hkd
              subst hkd
              rw [lookup_eraseKey_self] at hk
              exact Option.noConfusion hk
            rw [lookup_eraseKey_ne _ _ _ hkd] at hk
            exact hb2 k doc2 hk hkl
      · intro d2 doc2 hk
        rw [hDeq] at hk
        have hkd : d2 ≠ d := by
          intro hkd
          subst hkd
          rw [lookup_eraseKey_self] at hk
          exact Option.noConfusion hk
        rw [lookup_eraseKey_ne _ _ _ hkd] at hk
        obtain ⟨hn2, hf2, hb2⟩ := hudoc d2 doc2 hk
        refine ⟨hn2, ?_, ?_⟩
        · intro x hx
          obtain ⟨ch2, hch2, hch2d⟩ := hf2 x hx
          exact ⟨ch2, by rw [hCeq]; exact hch2, hch2d⟩
        · intro k ch2 hk2 hk2d
          rw [hCeq] at hk2
          exact hb2 k ch2 hk2 hk2d
      · intro d2 doc2 hk
        rw [hDeq] at hk
        have hkd : d2 ≠ d := by
          intro hkd
          subst hkd
          rw [lookup_eraseKey_self] at hk
          exact Option.noConfusion hk
        rw [lookup_eraseKey_ne _ _ _ hkd] at hk
        have := hudpar d2 doc2 hk
        rw [hLeq]
        exact isSome_lookup_setKey _ _ this
      · intro k ch2 hk2
        rw [hCeq] at hk2
        have hne := hnochunk k ch2 hk2
        have := hucpar k ch2 hk2
        rw [hDeq, lookup_eraseKey_ne _ _ _ hne]
        exact this

theorem WFL_foldl_delete_document (l : List UUID) (t : VectorStorage) (h : WFL t) :
    WFL (l.foldl (fun u i => (delete_document u i).2) t) := by
  induction l generalizing t with
  | nil => exact h
  | cons d rest ih =>
    simp only [List.foldl_cons]
    exact ih _ (WFL_delete_document t d h)

theorem foldl_delete_document_mem_none (l : List UUID) (t : VectorStorage) {d : UUID}
    (h : d ∈ l) :
    lookup (l.foldl (fun u i => (delete_document u i).2) t).documents d = none := by
  induction l generalizing t with
  | nil => simp at h
  | cons d0 rest ih =>
    simp only [List.foldl_cons]
    rcases List.mem_cons.mp h with h1 | h1
    · subst h1
      exact foldl_delete_document_docs_none rest _ _ (delete_document_docs_self t d)
    · exact ih _ h1

theorem delete_document_documents_value (t : VectorStorage) (d k : UUID) {doc2 : Document}
    (h : lookup (delete_document t d).2.documents k = some doc2) :
    ∃ doc0, lookup t.documents k = some doc0 ∧ doc2.library_id = doc0.library_id := by
  cases hd : lookup t.documents d with
  | none =>
    rw [delete_document_not_found t d hd] at h
    exact ⟨doc2, h, rfl⟩
  | some document =>
    rw [delete_document_documents_eq t d document hd] at h
    have hkd : k ≠ d := by
      intro hkd
      subst hkd
      rw [lookup_eraseKey_self] at h
      exact Option.noConfusion h
    rw [lookup_eraseKey_ne _ _ _ hkd] at h
    have hmap := foldl_delete_chunk_documents_map document.chunk_ids t k
    rw [h] at hmap
    cases ht : lookup t.documents k with
    | none => rw [ht] at hmap; simp at hmap
    | some doc0 =>
      rw [ht] at hmap
      simp at hmap
      exact ⟨doc0, rfl, hmap⟩

theorem foldl_delete_document_documents_value (l : List UUID) (t : VectorStorage) (k : UUID)
    {doc2 : Document}
    (h : lookup (l.foldl (fun u i => (delete_document u i).2) t).documents k = some doc2) :
    ∃ doc0, lookup t.documents k = some doc0 ∧ doc2.library_id = doc0.library_id := by
  induction l generalizing t with
  | nil => exact ⟨doc2, by simpa using h, rfl⟩
  | cons d rest ih =>
    simp only [List.foldl_cons] at h
    obtain ⟨doc1, hdoc1, heq1⟩ := ih _ h
    obtain ⟨doc0, hdoc0, heq0⟩ := delete_document_documents_value t d k hdoc1
    exact ⟨doc0, hdoc0, heq1.trans heq0⟩

theorem WFL_delete_library (s : VectorStorage) (L : UUID) (h : WFL s) :
    WFL (delete_library s L).2 := by
  cases hL : lookup s.libraries L with
  | none =>
    have heq : (delete_library s L).2 = s := by simp [delete_library, hL]
    rw [heq]
    exact h
  | some lib =>
    have hu : WFL (lib.document_ids.foldl (fun u i => (delete_document u i).2) s) :=
      WFL_foldl_delete_document _ _ h
    obtain ⟨hunl, hund, hunc, hulib, hudoc, hudpar, hucpar⟩ := hu
    have hnodoc : ∀ k doc2,
        lookup (lib.document_ids.foldl (fun u i => (delete_document u i).2) s).documents k =
          some doc2 → doc2.library_id ≠ L := by
      intro k doc2 hk hkL
      obtain ⟨doc0, hdoc0, heq0⟩ := foldl_delete_document_documents_value _ _ _ hk
      have hkmem := (h.2.2.2.1 L lib hL).2.2 k doc0 hdoc0 (heq0 ▸ hkL)
      have := foldl_delete_document_mem_none lib.document_ids s hkmem
      rw [this] at hk
      exact Option.noConfusion hk
    have hLeq := delete_library_libraries s L lib hL
    have hDeq := delete_library_documents s L lib hL
    have hCeq := delete_library_chunks s L lib hL
    refine ⟨?_, ?_, ?_, ?_, ?_, ?_, ?_⟩
    · unfold keysNodup
      rw [hLeq]
      exact keysNodup_eraseKey _ hunl
    · unfold keysNodup
      rw [hDeq]
      exact hund
    · unfold keysNodup
      rw [hCeq]
      exact hunc
    · intro l2 lib2 hl2
      rw [hLeq] at hl2
      have hl2L : l2 ≠ L := by
        intro hll
        subst hll
        rw [lookup_eraseKey_self] at hl2
        exact Option.noConfusion hl2
      rw [lookup_eraseKey_ne _ _ _ hl2L] at hl2
      obtain ⟨hn2, hf2, hb2⟩ := hulib l2 lib2 hl2
      refine ⟨hn2, ?_, ?_⟩
      · intro d2 hd2
        obtain ⟨doc2, hdoc2, hdoc2l⟩ := hf2 d2 hd2
        exact ⟨doc2, by rw [hDeq]; exact hdoc2, hdoc2l⟩
      · intro k doc2 hk hkl
        rw [hDeq] at hk
        exact hb2 k doc2 hk hkl
    · intro d2 doc2 hk
      rw [hDeq] at hk
      obtain ⟨hn2, hf2, hb2⟩ := hudoc d2 doc2 hk
      refine ⟨hn2, ?_, ?_⟩
      · intro x hx
        obtain ⟨ch2, hch2, hch2d⟩ := hf2 x hx
        exact ⟨ch2, by rw [hCeq]; exact hch2, hch2d⟩
      · intro k ch2 hk2 hk2d
        rw [hCeq] at hk2
        exact hb2 k ch2 hk2 hk2d
    · intro d2 doc2 hk
      rw [hDeq] at hk
      have hpar := hudpar d2 doc2 hk
      have hne := hnodoc d2 doc2 hk
      rw [hLeq, lookup_eraseKey_ne _ _ _ hne]
      exact hpar
    · intro k ch2 hk2
      rw [hCeq] at hk2
      have := hucpar k ch2 hk2
      rw [hDeq]
      exact this

theorem nodup_append_singleton {l : List UUID} {a : UUID} (h : l.Nodup) (ha : a ∉ l) :
    (l ++ [a]).Nodup := by
  rw [List.nodup_append]
  exact ⟨h, List.nodup_singleton a, fun x hx hxa => ha ((List.mem_singleton.mp hxa) ▸ hx)⟩

theorem WFL_insert_lib_fresh (t : VectorStorage) (lib : Library) (h : WFL t)
    (hfresh : lookup t.libraries lib.id = none) (hempty : lib.document_ids = []) :
    WFL { t with libraries := setKey t.libraries lib.id lib } := by
  obtain ⟨hnl, hnd, hnc, hlib, hdoc, hdpar, hcpar⟩ := h
  refine ⟨keysNodup_setKey _ _ hnl, hnd, hnc, ?_, hdoc, ?_, hcpar⟩
  · intro l2 lib2 hl2
    by_cases hll : l2 = lib.id
    · subst hll
      rw [lookup_setKey_self] at hl2
      have hlib2 : lib2 = lib := (Option.some.inj hl2).symm
      subst hlib2
      refine ⟨by rw [hempty]; exact List.nodup_nil, ?_, ?_⟩
      · intro d2 hd2
        rw [hempty] at hd2
        simp at hd2
      · intro k doc2 hk hkl
        have := hdpar k doc2 hk
        rw [hkl, hfresh] at this
        simp at this
    · rw [lookup_setKey_ne _ _ _ _ hll] at hl2
      exact hlib l2 lib2 hl2
  · intro d2 doc2 hk
    exact isSome_lookup_setKey _ _ (hdpar d2 doc2 hk)

theorem WFL_set_library_preserving (t : VectorStorage) (i : UUID) (lib : Library) (h : WFL t)
    (hold : ∀ old, lookup t.libraries i = some old → lib.document_ids = old.document_ids)
    (hsome : (lookup t.libraries i).isSome) :
    WFL { t with libraries := setKey t.libraries i lib } := by
  obtain ⟨hnl, hnd, hnc, hlib, hdoc, hdpar, hcpar⟩ := h
  cases hO : lookup t.libraries i with
  | none => rw [hO] at hsome; simp at hsome
  | some old =>
    have hpres := hold old hO
    refine ⟨keysNodup_setKey _ _ hnl, hnd, hnc, ?_, hdoc, ?_, hcpar⟩
    · intro l2 lib2 hl2
      by_cases hll : l2 = i
      · subst hll
        rw [lookup_setKey_self] at hl2
        have hlib2 : lib2 = lib := (Option.some.inj hl2).symm
        obtain ⟨hn0, hf0, hb0⟩ := hlib l2 old hO
        refine ⟨?_, ?_, ?_⟩
        · rw [hlib2, hpres]
          exact hn0
        · intro d2 hd2
          rw [hlib2, hpres] at hd2
          exact hf0 d2 hd2
        · intro k doc2 hk hkl
          rw [hlib2, hpres]
          exact hb0 k doc2 hk hkl
      · rw [lookup_setKey_ne _ _ _ _ hll] at hl2
        exact hlib l2 lib2 hl2
    · intro d2 doc2 hk
      exact isSome_lookup_setKey _ _ (hdpar d2 doc2 hk)

theorem WFL_insert_doc_fresh (t : VectorStorage) (doc : Document) (library : Library)
    (h : WFL t)
    (hfresh : lookup t.documents doc.id = none)
    (hpar : lookup t.libraries doc.library_id = some library)
    (hempty : doc.chunk_ids = []) :
    WFL { t with libraries := setKey t.libraries doc.library_id ({ library with document_ids := library.document_ids ++ [doc.id] }), documents := setKey t.documents doc.id doc } := by
  obtain ⟨hnl, hnd, hnc, hlib, hdoc, hdpar, hcpar⟩ := h
  have hlibok := hlib _ library hpar
  have hdocfresh : ∀ k doc2, lookup t.documents k = some doc2 → k ≠ doc.id := by
    intro k doc2 hk hkid
    subst hkid
    rw [hfresh] at hk
    exact Option.noConfusion hk
  have hnotmem : doc.id ∉ library.document_ids := by
    intro hmem
    obtain ⟨doc2, hdoc2, -⟩ := hlibok.2.1 doc.id hmem
    exact hdocfresh doc.id doc2 hdoc2 rfl
  refine ⟨keysNodup_setKey _ _ hnl, keysNodup_setKey _ _ hnd, hnc, ?_, ?_, ?_, ?_⟩
  · intro l2 lib2 hl2
    by_cases hll : l2 = doc.library_id
    · subst hll
      rw [lookup_setKey_self] at hl2
      have hlib2 : lib2 = { library with document_ids := library.document_ids ++ [doc.id] } :=
        (Option.some.inj hl2).symm
      subst hlib2
      refine ⟨nodup_append_singleton hlibok.1 hnotmem, ?_, ?_⟩
      · intro d2 hd2
        rcases List.mem_append.mp hd2 with hd2 | hd2
        · obtain ⟨doc2, hdoc2, hdoc2l⟩ := hlibok.2.1 d2 hd2
          refine ⟨doc2, ?_, hdoc2l⟩
          rw [lookup_setKey_ne _ _ _ _ (hdocfresh d2 doc2 hdoc2)]
          exact hdoc2
        · rw [List.mem_singleton.mp hd2]
          exact ⟨doc, lookup_setKey_self _ _ _, rfl⟩
      · intro k doc2 hk hkl
        by_cases hkid : k = doc.id
        · simp [hkid]
        · rw [lookup_setKey_ne _ _ _ _ hkid] at hk
          exact List.mem_append.mpr (Or.inl (hlibok.2.2 k doc2 hk hkl))
    · rw [lookup_setKey_ne _ _ _ _ hll] at hl2
      obtain ⟨hn2, hf2, hb2⟩ := hlib l2 lib2 hl2
      refine ⟨hn2, ?_, ?_⟩
      · intro d2 hd2
        obtain ⟨doc2, hdoc2, hdoc2l⟩ := hf2 d2 hd2
        refine ⟨doc2, ?_, hdoc2l⟩
        rw [lookup_setKey_ne _ _ _ _ (hdocfresh d2 doc2 hdoc2)]
        exact hdoc2
      · intro k doc2 hk hkl
        by_cases hkid : k = doc.id
        · subst hkid
          rw [lookup_setKey_self] at hk
          have : doc2 = doc := (Option.some.inj hk).symm
          subst this
          exact absurd hkl.symm hll
        · rw [lookup_setKey_ne _ _ _ _ hkid] at hk
          exact hb2 k doc2 hk hkl
  · intro d2 doc2 hk
    by_cases hkid : d2 = doc.id
    · subst hkid
      rw [lookup_setKey_self] at hk
      have : doc2 = doc := (Option.some.inj hk).symm
      subst this
      refine ⟨by rw [hempty]; exact List.nodup_nil, ?_, ?_⟩
      · intro x hx
        rw [hempty] at hx
        simp at hx
      · intro k ch2 hk2 hk2d
        have := hcpar k ch2 hk2
        rw [hk2d, hfresh] at this
        simp at this
    · rw [lookup_setKey_ne _ _ _ _ hkid] at hk
      exact hdoc d2 doc2 hk
  · intro d2 doc2 hk
    by_cases hkid : d2 = doc.id
    · subst hkid
      rw [lookup_setKey_self] at hk
      have : doc2 = doc := (Option.some.inj hk).symm
      subst this
      rw [lookup_setKey_self]
      simp
    · rw [lookup_setKey_ne _ _ _ _ hkid] at hk
      exact isSome_lookup_setKey _ _ (hdpar d2 doc2 hk)
  · intro k ch2 hk2
    exact isSome_lookup_setKey _ _ (hcpar k ch2 hk2)

theorem WFL_set_document_preserving (t : VectorStorage) (i : UUID) (doc : Document)
    (h : WFL t)
    (hold : ∀ old, lookup t.documents i = some old →
      doc.chunk_ids = old.chunk_ids ∧ doc.library_id = old.library_id)
    (hsome : (lookup t.documents i).isSome) :
    WFL { t with documents := setKey t.documents i doc } := by
  obtain ⟨hnl, hnd, hnc, hlib, hdoc, hdpar, hcpar⟩ := h
  cases hO : lookup t.documents i with
  | none => rw [hO] at hsome; simp at hsome
  | some old =>
    obtain ⟨hpc, hpl⟩ := hold old hO
    refine ⟨hnl, keysNodup_setKey _ _ hnd, hnc, ?_, ?_, ?_, ?_⟩
    · intro l2 lib2 hl2
      obtain ⟨hn2, hf2, hb2⟩ := hlib l2 lib2 hl2
      refine ⟨hn2, ?_, ?_⟩
      · intro d2 hd2
        obtain ⟨doc2, hdoc2, hdoc2l⟩ := hf2 d2 hd2
        by_cases hdi : d2 = i
        · subst hdi
          have : doc2 = old := Option.some.inj (hdoc2.symm.trans hO)
          refine ⟨doc, lookup_setKey_self _ _ _, ?_⟩
          rw [hpl, ← this]
          exact hdoc2l
        · exact ⟨doc2, by rw [lookup_setKey_ne _ _ _ _ hdi]; exact hdoc2, hdoc2l⟩
      · intro k doc2 hk hkl
        by_cases hki : k = i
        · subst hki
          rw [lookup_setKey_self] at hk
          have : doc2 = doc := (Option.some.inj hk).symm
          subst this
          rw [hpl] at hkl
          exact hb2 _ old hO hkl
        · rw [lookup_setKey_ne _ _ _ _ hki] at hk
          exact hb2 k doc2 hk hkl
    · intro d2 doc2 hk
      by_cases hdi : d2 = i
      · subst hdi
        rw [lookup_setKey_self] at hk
        have : doc2 = doc := (Option.some.inj hk).symm
        subst this
        obtain ⟨hn0, hf0, hb0⟩ := hdoc d2 old hO
        refine ⟨by rw [hpc]; exact hn0, ?_, ?_⟩
        · intro x hx
          rw [hpc] at hx
          exact hf0 x hx
        · intro k ch2 hk2 hk2d
          rw [hpc]
          exact hb0 k ch2 hk2 hk2d
      · rw [lookup_setKey_ne _ _ _ _ hdi] at hk
        exact hdoc d2 doc2 hk
    · intro d2 doc2 hk
      by_cases hdi : d2 = i
      · subst hdi
        rw [lookup_setKey_self] at hk
        have : doc2 = doc := (Option.some.inj hk).symm
        subst this
        rw [hpl]
        exact hdpar _ old hO
      · rw [lookup_setKey_ne _ _ _ _ hdi] at hk
        exact hdpar d2 doc2 hk
    · intro k ch2 hk2
      exact isSome_lookup_setKey _ _ (hcpar k ch2 hk2)

theorem WFL_insert_chunk_fresh (t : VectorStorage) (c : Chunk) (document : Document)
    (h : WFL t)
    (hfresh : lookup t.chunks c.id = none)
    (hpar : lookup t.documents c.document_id = some document) :
    WFL { t with documents := setKey t.documents c.document_id ({ document with chunk_ids := document.chunk_ids ++ [c.id] }), chunks := setKey t.chunks c.id c } := by
  obtain ⟨hnl, hnd, hnc, hlib, hdoc, hdpar, hcpar⟩ := h
  have hdocok := hdoc _ document hpar
  have hchfresh : ∀ k ch2, lookup t.chunks k = some ch2 → k ≠ c.id := by
    intro k ch2 hk hkid
    subst hkid
    rw [hfresh] at hk
    exact Option.noConfusion hk
  have hnotmem : c.id ∉ document.chunk_ids := by
    intro hmem
    obtain ⟨ch2, hch2, -⟩ := hdocok.2.1 c.id hmem
    exact hchfresh c.id ch2 hch2 rfl
  refine ⟨hnl, keysNodup_setKey _ _ hnd, keysNodup_setKey _ _ hnc, ?_, ?_, ?_, ?_⟩
  · intro l2 lib2 hl2
    obtain ⟨hn2, hf2, hb2⟩ := hlib l2 lib2 hl2
    refine ⟨hn2, ?_, ?_⟩
    · intro d2 hd2
      obtain ⟨doc2, hdoc2, hdoc2l⟩ := hf2 d2 hd2
      by_cases hdi : d2 = c.document_id
      · subst hdi
        have : doc2 = document := Option.some.inj (hdoc2.symm.trans hpar)
        refine ⟨{ document with chunk_ids := document.chunk_ids ++ [c.id] },
          lookup_setKey_self _ _ _, ?_⟩
        rw [← this] at *
        exact hdoc2l
      · exact ⟨doc2, by rw [lookup_setKey_ne _ _ _ _ hdi]; exact hdoc2, hdoc2l⟩
    · intro k doc2 hk hkl
      by_cases hki : k = c.document_id
      · subst hki
        rw [lookup_setKey_self] at hk
        have : doc2 = { document with chunk_ids := document.chunk_ids ++ [c.id] } :=
          (Option.some.inj hk).symm
        subst this
        exact hb2 _ document hpar (by simpa using hkl)
      · rw [lookup_setKey_ne _ _ _ _ hki] at hk
        exact hb2 k doc2 hk hkl
  · intro d2 doc2 hk
    by_cases hdi : d2 = c.document_id
    · subst hdi
      rw [lookup_setKey_self] at hk
      have : doc2 = { document with chunk_ids := document.chunk_ids ++ [c.id] } :=
        (Option.some.inj hk).symm
      subst this
      refine ⟨nodup_append_singleton hdocok.1 hnotmem, ?_, ?_⟩
      · intro x hx
        have hx2 : x ∈ document.chunk_ids ∨ x = c.id := by simpa using hx
        rcases hx2 with hx1 | hx1
        · obtain ⟨ch2, hch2, hch2d⟩ := hdocok.2.1 x hx1
          refine ⟨ch2, ?_, hch2d⟩
          rw [lookup_setKey_ne _ _ _ _ (hchfresh x ch2 hch2)]
          exact hch2
        · subst hx1
          exact ⟨c, lookup_setKey_self _ _ _, rfl⟩
      · intro k ch2 hk2 hk2d
        by_cases hkc : k = c.id
        · simp [hkc]
        · rw [lookup_setKey_ne _ _ _ _ hkc] at hk2
          have := hdocok.2.2 k ch2 hk2 hk2d
          simp [this]
    · rw [lookup_setKey_ne _ _ _ _ hdi] at hk
      obtain ⟨hn2, hf2, hb2⟩ := hdoc d2 doc2 hk
      refine ⟨hn2, ?_, ?_⟩
      · intro x hx
        obtain ⟨ch2, hch2, hch2d⟩ := hf2 x hx
        refine ⟨ch2, ?_, hch2d⟩
        rw [lookup_setKey_ne _ _ _ _ (hchfresh x ch2 hch2)]
        exact hch2
      · intro k ch2 hk2 hk2d
        by_cases hkc : k = c.id
        · subst hkc
          rw [lookup_setKey_self] at hk2
          have : ch2 = c := (Option.some.inj hk2).symm
          subst this
          exact absurd hk2d.symm hdi
        · rw [lookup_setKey_ne _ _ _ _ hkc] at hk2
          exact hb2 k ch2 hk2 hk2d
  · intro d2 doc2 hk
    by_cases hdi : d2 = c.document_id
    · subst hdi
      rw [lookup_setKey_self] at hk
      have : doc2 = { document with chunk_ids := document.chunk_ids ++ [c.id] } :=
        (Option.some.inj hk).symm
      subst this
      exact hdpar _ document hpar
    · rw [lookup_setKey_ne _ _ _ _ hdi] at hk
      exact hdpar d2 doc2 hk
  · intro k ch2 hk2
    by_cases hkc : k = c.id
    · subst hkc
      rw [lookup_setKey_self] at hk2
      have : ch2 = c := (Option.some.inj hk2).symm
      subst this
      exact isSome_lookup_setKey _ _ (by rw [hpar]; simp)
    · rw [lookup_setKey_ne _ _ _ _ hkc] at hk2
      exact isSome_lookup_setKey _ _ (hcpar k ch2 hk2)

theorem WFL_set_chunk_samedoc (t : VectorStorage) (i : UUID) (c : Chunk) (h : WFL t)
    (hold : ∀ old, lookup t.chunks i = some old → c.document_id = old.document_id)
    (hsome : (lookup t.chunks i).isSome) :
    WFL { t with chunks := setKey t.chunks i c } := by
  obtain ⟨hnl, hnd, hnc, hlib, hdoc, hdpar, hcpar⟩ := h
  cases hO : lookup t.chunks i with
  | none => rw [hO] at hsome; simp at hsome
  | some old =>
    have hdd := hold old hO
    refine ⟨hnl, hnd, keysNodup_setKey _ _ hnc, ?_, ?_, hdpar, ?_⟩
    · intro l2 lib2 hl2
      exact hlib l2 lib2 hl2
    · intro d2 doc2 hk
      obtain ⟨hn2, hf2, hb2⟩ := hdoc d2 doc2 hk
      refine ⟨hn2, ?_, ?_⟩
      · intro x hx
        obtain ⟨ch2, hch2, hch2d⟩ := hf2 x hx
        by_cases hxi : x = i
        · subst hxi
          have : ch2 = old := Option.some.inj (hch2.symm.trans hO)
          refine ⟨c, lookup_setKey_self _ _ _, ?_⟩
          rw [hdd, ← this]
          exact hch2d
        · exact ⟨ch2, by rw [lookup_setKey_ne _ _ _ _ hxi]; exact hch2, hch2d⟩
      · intro k ch2 hk2 hk2d
        by_cases hki : k = i
        · subst hki
          rw [lookup_setKey_self] at hk2
          have : ch2 = c := (Option.some.inj hk2).symm
          subst this
          rw [hdd] at hk2d
          exact hb2 _ old hO hk2d
        · rw [lookup_setKey_ne _ _ _ _ hki] at hk2
          exact hb2 k ch2 hk2 hk2d
    · intro k ch2 hk2
      by_cases hki : k = i
      · subst hki
        rw [lookup_setKey_self] at hk2
        have : ch2 = c := (Option.some.inj hk2).symm
        subst this
        rw [hdd]
        exact hcpar _ old hO
      · rw [lookup_setKey_ne _ _ _ _ hki] at hk2
        exact hcpar k ch2 hk2

theorem isSome_setKey_iff {m : List (UUID × α)} {k : UUID} {v : α}
    (hk : (lookup m k).isSome) (x : UUID) :
    (lookup (setKey m k v) x).isSome ↔ (lookup m x).isSome := by
  rw [lookup_setKey]
  by_cases hx : x = k
  · subst hx
    simp [hk]
  · simp [hx]

theorem chunks_batch_validate_none {s : VectorStorage} {cs : List Chunk}
    (h : chunks_batch_validate s cs = none) :
    ∀ c ∈ cs, lookup s.chunks c.id = none ∧ (lookup s.documents c.document_id).isSome := by
  induction cs with
  | nil => simp
  | cons c0 rest ih =>
    unfold chunks_batch_validate at h
    by_cases ha : (lookup s.chunks c0.id).isSome
    · simp [ha] at h
    · by_cases hb : (lookup s.documents c0.document_id).isNone
      · simp [ha, hb] at h
      · simp only [ha, hb, if_false] at h
        intro c hc
        rcases List.mem_cons.mp hc with h1 | h1
        · subst h1
          refine ⟨?_, ?_⟩
          · cases hl : lookup s.chunks c.id
            · rfl
            · rw [hl] at ha; simp at ha
          · cases hl : lookup s.documents c.document_id
            · rw [hl] at hb; simp at hb
            · simp
        · exact ih h c h1

theorem documents_batch_validate_none {s : VectorStorage} {ds : List Document}
    (h : documents_batch_validate s ds = none) :
    ∀ d ∈ ds, lookup s.documents d.id = none ∧ (lookup s.libraries d.library_id).isSome := by
  induction ds with
  | nil => simp
  | cons d0 rest ih =>
    unfold documents_batch_validate at h
    by_cases ha : (lookup s.documents d0.id).isSome
    · simp [ha] at h
    · by_cases hb : (lookup s.libraries d0.library_id).isNone
      · simp [ha, hb] at h
      · simp only [ha, hb, if_false] at h
        intro d hd
        rcases List.mem_cons.mp hd with h1 | h1
        · subst h1
          refine ⟨?_, ?_⟩
          · cases hl : lookup s.documents d.id
            · rfl
            · rw [hl] at ha; simp at ha
          · cases hl : lookup s.libraries d.library_id
            · rw [hl] at hb; simp at hb
            · simp
        · exact ih h d h1

theorem WFL_chunks_batch_fold (s : VectorStorage) (cs : List Chunk)
    (hval : ∀ c ∈ cs, lookup s.chunks c.id = none ∧ (lookup s.documents c.document_id).isSome)
    (hpair : ∀ c1 ∈ cs, ∀ c2 ∈ cs, c1.id = c2.id → c1.document_id = c2.document_id) :
    ∀ (l : List Chunk), (∀ c ∈ l, c ∈ cs) → ∀ (t : VectorStorage), WFL t →
    (∀ x, (lookup t.documents x).isSome ↔ (lookup s.documents x).isSome) →
    (∀ k ch, lookup t.chunks k = some ch →
      lookup s.chunks k = some ch ∨ (ch ∈ cs ∧ ch.id = k)) →
    WFL (l.foldl insert_chunk_unchecked t) := by
  intro l
  induction l with
  | nil =>
    intro _ t ht _ _
    exact ht
  | cons c rest ih =>
    intro hsub t ht hdocs hprov
    simp only [List.foldl_cons]
    have hc_cs : c ∈ cs := hsub c (List.mem_cons_self c rest)
    obtain ⟨hfresh_s, hpar_s⟩ := hval c hc_cs
    have hpar_t : (lookup t.documents c.document_id).isSome := (hdocs _).mpr hpar_s
    cases hD : lookup t.documents c.document_id with
    | none => rw [hD] at hpar_t; simp at hpar_t
    | some document =>
      cases hO : lookup t.chunks c.id with
      | none =>
        have hnotmem : c.id ∉ document.chunk_ids := by
          intro hmem
          obtain ⟨ch2, hch2, -⟩ := (ht.2.2.2.2.1 _ document hD).2.1 c.id hmem
          rw [hO] at hch2
          exact Option.noConfusion hch2
        have hstep : insert_chunk_unchecked t c =
            { t with documents := setKey t.documents c.document_id ({ document with chunk_ids := document.chunk_ids ++ [c.id] }), chunks := setKey t.chunks c.id c } := by
          unfold insert_chunk_unchecked
          simp [hD, hnotmem]
        refine ih (fun c2 h2 => hsub c2 (List.mem_cons_of_mem _ h2)) _ ?_ ?_ ?_
        · rw [hstep]
          exact WFL_insert_chunk_fresh t c document ht hO hD
        · intro x
          rw [hstep]
          exact (isSome_setKey_iff (by rw [hD]; simp) x).trans (hdocs x)
        · intro k ch hk
          rw [hstep] at hk
          have hk2 : lookup (setKey t.chunks c.id c) k = some ch := hk
          rw [lookup_setKey] at hk2
          by_cases hkc : k = c.id
          · rw [if_pos hkc] at hk2
            have : ch = c := (Option.some.inj hk2).symm
            subst this
            exact Or.inr ⟨hc_cs, hkc.symm⟩
          · rw [if_neg hkc] at hk2
            exact hprov k ch hk2
      | some old =>
        have hold_cs : old ∈ cs ∧ old.id = c.id := by
          rcases hprov c.id old hO with h1 | h1
          · rw [hfresh_s] at h1
            exact Option.noConfusion h1
          · exact h1
        have hsame : c.document_id = old.document_id :=
          hpair c hc_cs old hold_cs.1 hold_cs.2.symm
        have hmem : c.id ∈ document.chunk_ids :=
          (ht.2.2.2.2.1 _ document hD).2.2 c.id old hO hsame.symm
        have hstep : insert_chunk_unchecked t c = { t with chunks := setKey t.chunks c.id c } := by
          unfold insert_chunk_unchecked
          simp [hD, hmem]
        refine ih (fun c2 h2 => hsub c2 (List.mem_cons_of_mem _ h2)) _ ?_ ?_ ?_
        · rw [hstep]
          refine WFL_set_chunk_samedoc t c.id c ht ?_ (by rw [hO]; simp)
          intro old2 hO2
          rw [Option.some.inj (hO2.symm.trans hO)] at *
          exact hsame
        · intro x
          rw [hstep]
          exact hdocs x
        · intro k ch hk
          rw [hstep] at hk
          have hk2 : lookup (setKey t.chunks c.id c) k = some ch := hk
          rw [lookup_setKey] at hk2
          by_cases hkc : k = c.id
          · rw [if_pos hkc] at hk2
            have : ch = c := (Option.some.inj hk2).symm
            subst this
            exact Or.inr ⟨hc_cs, hkc.symm⟩
          · rw [if_neg hkc] at hk2
            exact hprov k ch hk2

theorem WFL_documents_batch_fold (s : VectorStorage) (ds : List Document)
    (hval : ∀ d ∈ ds, lookup s.documents d.id = none ∧ (lookup s.libraries d.library_id).isSome)
    (hempty : ∀ d ∈ ds, d.chunk_ids = [])
    (hpair : ∀ d1 ∈ ds, ∀ d2 ∈ ds, d1.id = d2.id → d1.library_id = d2.library_id) :
    ∀ (l : List Document), (∀ d ∈ l, d ∈ ds) → ∀ (t : VectorStorage), WFL t →
    (∀ x, (lookup t.libraries x).isSome ↔ (lookup s.libraries x).isSome) →
    (∀ k doc, lookup t.documents k = some doc →
      lookup s.documents k = some doc ∨ (doc ∈ ds ∧ doc.id = k)) →
    WFL (l.foldl insert_document_unchecked t) := by
  intro l
  induction l with
  | nil =>
    intro _ t ht _ _
    exact ht
  | cons d rest ih =>
    intro hsub t ht hlibs hprov
    simp only [List.foldl_cons]
    have hd_ds : d ∈ ds := hsub d (List.mem_cons_self d rest)
    obtain ⟨hfresh_s, hpar_s⟩ := hval d hd_ds
    have hpar_t : (lookup t.libraries d.library_id).isSome := (hlibs _).mpr hpar_s
    cases hL : lookup t.libraries d.library_id with
    | none => rw [hL] at hpar_t; simp at hpar_t
    | some library =>
      cases hO : lookup t.documents d.id with
      | none =>
        have hnotmem : d.id ∉ library.document_ids := by
          intro hmem
          obtain ⟨doc2, hdoc2, -⟩ := (ht.2.2.2.1 _ library hL).2.1 d.id hmem
          rw [hO] at hdoc2
          exact Option.noConfusion hdoc2
        have hstep : insert_document_unchecked t d =
            { t with libraries := setKey t.libraries d.library_id ({ library with document_ids := library.document_ids ++ [d.id] }), documents := setKey t.documents d.id d } := by
          unfold insert_document_unchecked
          simp [hL, hnotmem]
        refine ih (fun d2 h2 => hsub d2 (List.mem_cons_of_mem _ h2)) _ ?_ ?_ ?_
        · rw [hstep]
          exact WFL_insert_doc_fresh t d library ht hO hL (hempty d hd_ds)
        · intro x
          rw [hstep]
          exact (isSome_setKey_iff (by rw [hL]; simp) x).trans (hlibs x)
        · intro k doc hk
          rw [hstep] at hk
          have hk2 : lookup (setKey t.documents d.id d) k = some doc := hk
          rw [lookup_setKey] at hk2
          by_cases hkd : k = d.id
          · rw [if_pos hkd] at hk2
            have : doc = d := (Option.some.inj hk2).symm
            subst this
            exact Or.inr ⟨hd_ds, hkd.symm⟩
          · rw [if_neg hkd] at hk2
            exact hprov k doc hk2
      | some old =>
        have hold_ds : old ∈ ds ∧ old.id = d.id := by
          rcases hprov d.id old hO with h1 | h1
          · rw [hfresh_s] at h1
            exact Option.noConfusion h1
          · exact h1
        have hsame : d.library_id = old.library_id :=
          hpair d hd_ds old hold_ds.1 hold_ds.2.symm
        have hmem : d.id ∈ library.document_ids :=
          (ht.2.2.2.1 _ library hL).2.2 d.id old hO hsame.symm
        have hstep : insert_document_unchecked t d =
            { t with documents := setKey t.documents d.id d } := by
          unfold insert_document_unchecked
          simp [hL, hmem]
        refine ih (fun d2 h2 => hsub d2 (List.mem_cons_of_mem _ h2)) _ ?_ ?_ ?_
        · rw [hstep]
          refine WFL_set_document_preserving t d.id d ht ?_ (by rw [hO]; simp)
          intro old2 hO2
          rw [Option.some.inj (hO2.symm.trans hO)] at *
          exact ⟨(hempty d hd_ds).trans (hempty old hold_ds.1).symm, hsame⟩
        · intro x
          rw [hstep]
          exact hlibs x
        · intro k doc hk
          rw [hstep] at hk
          have hk2 : lookup (setKey t.documents d.id d) k = some doc := hk
          rw [lookup_setKey] at hk2
          by_cases hkd : k = d.id
          · rw [if_pos hkd] at hk2
            have : doc = d := (Option.some.inj hk2).symm
            subst this
            exact Or.inr ⟨hd_ds, hkd.symm⟩
          · rw [if_neg hkd] at hk2
            exact hprov k doc hk2

theorem WFL_applyOp (s : VectorStorage) (op : Op) (h : WFL s) (hok : opOk s op = true) :
    WFL (applyOp s op) := by
  cases op with
  | createLib lib =>
    have hempty : lib.document_ids = [] := by simpa [opOk] using hok
    simp only [applyOp]
    cases hres : create_library s lib with
    | error e => exact h
    | ok t =>
      unfold create_library at hres
      by_cases hc : (lookup s.libraries lib.id).isSome
      · simp [hc] at hres
      · simp only [hc, if_false, Except.ok.injEq] at hres
        have hfresh : lookup s.libraries lib.id = none := by
          cases hl : lookup s.libraries lib.id
          · rfl
          · rw [hl] at hc; simp at hc
        rw [← hres]
        exact WFL_insert_lib_fresh s lib h hfresh hempty
  | updateLib i lib =>
    simp only [applyOp]
    cases hres : update_library s i lib with
    | error e => exact h
    | ok t =>
      unfold update_library at hres
      by_cases hc : (lookup s.libraries i).isNone
      · simp [hc] at hres
      · simp only [hc, if_false, Except.ok.injEq] at hres
        have hsome : (lookup s.libraries i).isSome := by
          cases hl : lookup s.libraries i
          · rw [hl] at hc; simp at hc
          · simp
        have hold : ∀ old, lookup s.libraries i = some old →
            lib.document_ids = old.document_ids := by
          intro old hO
          have h2 := hok
          simp only [opOk, hO] at h2
          exact of_decide_eq_true h2
        rw [← hres]
        exact WFL_set_library_preserving s i lib h hold hsome
  | deleteLib i =>
    simp only [applyOp]
    exact WFL_delete_library s i h
  | createDoc doc =>
    have hempty : doc.chunk_ids = [] := by simpa [opOk] using hok
    simp only [applyOp]
    cases hres : create_document s doc with
    | error e => exact h
    | ok t =>
      unfold create_document at hres
      by_cases hc : (lookup s.documents doc.id).isSome
      · simp [hc] at hres
      · have hfresh : lookup s.documents doc.id = none := by
          cases hl : lookup s.documents doc.id
          · rfl
          · rw [hl] at hc; simp at hc
        cases hL : lookup s.libraries doc.library_id with
        | none => simp [hc, hL] at hres
        | some library =>
          have hnotmem : doc.id ∉ library.document_ids := by
            intro hmem
            obtain ⟨doc2, hdoc2, -⟩ := (h.2.2.2.1 _ library hL).2.1 doc.id hmem
            rw [hfresh] at hdoc2
            exact Option.noConfusion hdoc2
          simp only [hc, hL, if_false, hnotmem, Except.ok.injEq] at hres
          rw [← hres]
          exact WFL_insert_doc_fresh s doc library h hfresh hL hempty
  | updateDoc i doc =>
    simp only [applyOp]
    cases hres : update_document s i doc with
    | error e => exact h
    | ok t =>
      unfold update_document at hres
      by_cases hc : (lookup s.documents i).isNone
      · simp [hc] at hres
      · simp only [hc, if_false, Except.ok.injEq] at hres
        have hsome : (lookup s.documents i).isSome := by
          cases hl : lookup s.documents i
          · rw [hl] at hc; simp at hc
          · simp
        have hold : ∀ old, lookup s.documents i = some old →
            doc.chunk_ids = old.chunk_ids ∧ doc.library_id = old.library_id := by
          intro old hO
          have h2 := hok
          simp only [opOk, hO] at h2
          exact of_decide_eq_true h2
        rw [← hres]
        exact WFL_set_document_preserving s i doc h hold hsome
  | deleteDoc i =>
    simp only [applyOp]
    exact WFL_delete_document s i h
  | createChunk c =>
    simp only [applyOp]
    cases hres : create_chunk s c with
    | error e => exact h
    | ok t =>
      unfold create_chunk at hres
      by_cases hc : (lookup s.chunks c.id).isSome
      · simp [hc] at hres
      · have hfresh : lookup s.chunks c.id = none := by
          cases hl : lookup s.chunks c.id
          · rfl
          · rw [hl] at hc; simp at hc
        cases hD : lookup s.documents c.document_id with
        | none => simp [hc, hD] at hres
        | some document =>
          have hnotmem : c.id ∉ document.chunk_ids := by
            intro hmem
            obtain ⟨ch2, hch2, -⟩ := (h.2.2.2.2.1 _ document hD).2.1 c.id hmem
            rw [hfresh] at hch2
            exact Option.noConfusion hch2
          simp only [hc, hD, if_false, hnotmem, Except.ok.injEq] at hres
          rw [← hres]
          exact WFL_insert_chunk_fresh s c document h hfresh hD
  | updateChunk i c =>
    simp only [applyOp]
    cases hres : update_chunk s i c with
    | error e => exact h
    | ok t =>
      unfold update_chunk at hres
      by_cases hc : (lookup s.chunks i).isNone
      · simp [hc] at hres
      · simp only [hc, if_false, Except.ok.injEq] at hres
        have hsome : (lookup s.chunks i).isSome := by
          cases hl : lookup s.chunks i
          · rw [hl] at hc; simp at hc
          · simp
        have hold : ∀ old, lookup s.chunks i = some old →
            c.document_id = old.document_id := by
          intro old hO
          have h2 := hok
          simp only [opOk, hO] at h2
          exact of_decide_eq_true h2
        rw [← hres]
        exact WFL_set_chunk_samedoc s i c h hold hsome
  | deleteChunk i =>
    simp only [applyOp]
    exact WFL_delete_chunk s i h
  | createChunksBatch cs =>
    have hpair : ∀ c1 ∈ cs, ∀ c2 ∈ cs, c1.id = c2.id → c1.document_id = c2.document_id := by
      simpa [opOk] using hok
    simp only [applyOp]
    cases hres : create_chunks_batch s cs with
    | error e => exact h
    | ok t =>
      unfold create_chunks_batch at hres
      cases hv : chunks_batch_validate s cs with
      | some e => simp [hv] at hres
      | none =>
        simp only [hv, Except.ok.injEq] at hres
        rw [← hres]
        exact WFL_chunks_batch_fold s cs (chunks_batch_validate_none hv) hpair cs
          (fun c hc => hc) s h (fun x => Iff.rfl) (fun k ch hk => Or.inl hk)
  | createDocsBatch ds =>
    have hboth : (∀ d ∈ ds, d.chunk_ids = []) ∧
        (∀ d1 ∈ ds, ∀ d2 ∈ ds, d1.id = d2.id → d1.library_id = d2.library_id) := by
      simpa [opOk] using hok
    simp only [applyOp]
    cases hres : create_documents_batch s ds with
    | error e => exact h
    | ok t =>
      unfold create_documents_batch at hres
      cases hv : documents_batch_validate s ds with
      | some e => simp [hv] at hres
      | none =>
        simp only [hv, Except.ok.injEq] at hres
        rw [← hres]
        exact WFL_documents_batch_fold s ds (documents_batch_validate_none hv) hboth.1
          hboth.2 ds (fun d hd => hd) s h (fun x => Iff.rfl) (fun k doc hk => Or.inl hk)

theorem WFL_empty : WFL emptyStorage := by
  refine ⟨?_, ?_, ?_, ?_, ?_, ?_, ?_⟩
  · exact List.nodup_nil
  · exact List.nodup_nil
  · exact List.nodup_nil
  · intro l lib hl
    exact Option.noConfusion hl
  · intro d doc hd
    exact Option.noConfusion hd
  · intro d doc hd
    exact Option.noConfusion hd
  · intro k ch hk
    exact Option.noConfusion hk

theorem WFL_execOps (ops : List Op) (s : VectorStorage) (h : WFL s)
    (hok : traceOk s ops = true) : WFL (execOps s ops) := by
  induction ops generalizing s with
  | nil => exact h
  | cons op rest ih =>
    unfold traceOk at hok
    rw [Bool.and_eq_true] at hok
    exact ih (applyOp s op) (WFL_applyOp s op h hok.1) hok.2

theorem WFL_child_lists_exact {s : VectorStorage} (h : WFL s) : ChildListsExact s := by
  obtain ⟨-, -, -, hlib, hdoc, -, -⟩ := h
  constructor
  · intro d doc hd c
    obtain ⟨-, hf, hb⟩ := hdoc d doc hd
    constructor
    · intro hc
      exact hf c hc
    · rintro ⟨ch, hch, hchd⟩
      exact hb c ch hch hchd
  · intro l lib hl d
    obtain ⟨-, hf, hb⟩ := hlib l lib hl
    constructor
    · intro hd
      exact hf d hd
    · rintro ⟨doc, hdoc2, hdocl⟩
      exact hb d doc hdoc2 hdocl

/-- C3 as amended: after every sequence of entity-store operations from
the empty store that obeys the service-level call discipline (updates
preserve the entity's parent id and child-id list - the update request
models have no such fields -, created entities carry empty child-id
lists, and batch elements sharing an id share a parent), every stored
document's `chunk_ids` holds exactly the ids of the stored chunks whose
`document_id` is that document, and every stored library's `document_ids`
likewise for documents. -/
theorem C3_child_lists_exact_of_trace (ops : List Op)
    (h : traceOk emptyStorage ops = true) :
    ChildListsExact (execOps emptyStorage ops) :=
  WFL_child_lists_exact (WFL_execOps ops emptyStorage WFL_empty h)

/-- Counterexample for C3 as stated: `update_chunk` accepts a chunk value
whose `document_id` differs from the stored one and maintains no list, so
after re-parenting chunk 4 from document 2 to document 3 the stored chunk
says document 3 but document 3 lists nothing (and document 2 still lists
4): the exactness invariant fails after a legal operation sequence. -/
theorem C3_counterexample :
    ¬ ChildListsExact (execOps emptyStorage
      [.createLib ⟨1, "l", [], [], .flat, [], 0⟩,
       .createDoc ⟨2, "d1", [], [], 1, 0⟩,
       .createDoc ⟨3, "d2", [], [], 1, 0⟩,
       .createChunk ⟨4, "c", [], [], 2, 0⟩,
       .updateChunk 4 ⟨4, "c", [], [], 3, 0⟩]) := by
  intro h
  have h2 := (h.1 3 ⟨3, "d2", [], [], 1, 0⟩ (by decide) 4).mpr
    ⟨⟨4, "c", [], [], 3, 0⟩, by decide, rfl⟩
  exact absurd h2 (by decide)

/-- Witness for the amended C3: a concrete compliant trace - create,
batch-create, update in place, cascade delete - ends in a state whose
child-id lists are exact. -/
theorem C3_child_lists_exact_of_trace_witness :
    ChildListsExact (execOps emptyStorage
      [.createLib ⟨1, "l", [], [], .flat, [], 0⟩,
       .createDoc ⟨2, "d1", [], [], 1, 0⟩,
       .createChunksBatch [⟨4, "c", [], [], 2, 0⟩, ⟨5, "c2", [], [], 2, 0⟩],
       .updateChunk 4 ⟨4, "c3", [1], [], 2, 7⟩,
       .deleteChunk 5,
       .createDoc ⟨6, "d2", [], [], 1, 0⟩,
       .deleteDoc 2]) :=
  C3_child_lists_exact_of_trace _ (by decide)

/-! ### Flat-index metric scores (C6, modelled from the spec) -/

theorem mem_insertByScore (x y : UUID × ℝ) (l : List (UUID × ℝ)) :
    y ∈ insertByScore x l ↔ y = x ∨ y ∈ l := by
  induction l with
  | nil => simp [insertByScore]
  | cons z zs ih =>
    unfold insertByScore
    by_cases h : z.2 < x.2
    · simp [h]
    · simp [h, List.mem_cons, ih]
      tauto

theorem rankByScore_head_max (l : List (UUID × ℝ)) (hl : l ≠ []) :
    ∃ h rest, rankByScore l = h :: rest ∧ h ∈ l ∧ ∀ y ∈ l, y.2 ≤ h.2 := by
  induction l with
  | nil => exact absurd rfl hl
  | cons x xs ih =>
    unfold rankByScore
    by_cases hxs : xs = []
    · subst hxs
      refine ⟨x, [], by simp [rankByScore, insertByScore], by simp, ?_⟩
      intro y hy
      simp at hy
      subst hy
      exact le_refl _
    · obtain ⟨h, rest, hrank, hmem, hmax⟩ := ih hxs
      rw [hrank]
      by_cases hcmp : h.2 < x.2
      · refine ⟨x, h :: rest, by simp [insertByScore, hcmp], by simp, ?_⟩
        intro y hy
        rcases List.mem_cons.mp hy with h1 | h1
        · exact h1 ▸ le_refl _
        · exact le_trans (hmax y h1) (le_of_lt hcmp)
      · refine ⟨h, insertByScore x rest, by simp [insertByScore, hcmp],
          List.mem_cons_of_mem _ hmem, ?_⟩
        intro y hy
        rcases List.mem_cons.mp hy with h1 | h1
        · exact h1 ▸ le_of_not_lt hcmp
        · exact hmax y h1

theorem dotR_self_nonneg (dm : ℕ) (v : Fin dm → ℝ) : 0 ≤ dotR dm v v :=
  Finset.sum_nonneg fun i _ => mul_self_nonneg (v i)

theorem abs_dotR_le (dm : ℕ) (q w : Fin dm → ℝ) :
    |dotR dm q w| ≤ Real.sqrt (dotR dm q q) * Real.sqrt (dotR dm w w) := by
  have hq : dotR dm q q = ∑ i, q i ^ 2 :=
    Finset.sum_congr rfl fun i _ => (pow_two (q i)).symm
  have hw : dotR dm w w = ∑ i, w i ^ 2 :=
    Finset.sum_congr rfl fun i _ => (pow_two (w i)).symm
  have hcs : (dotR dm q w) ^ 2 ≤ (dotR dm q q) * (dotR dm w w) := by
    rw [hq, hw]
    exact Finset.sum_mul_sq_le_sq_mul_sq Finset.univ q w
  calc |dotR dm q w| = Real.sqrt ((dotR dm q w) ^ 2) := (Real.sqrt_sq_eq_abs _).symm
    _ ≤ Real.sqrt ((dotR dm q q) * (dotR dm w w)) := Real.sqrt_le_sqrt hcs
    _ = Real.sqrt (dotR dm q q) * Real.sqrt (dotR dm w w) :=
        Real.sqrt_mul (dotR_self_nonneg dm q) _

theorem cosine_self (dm : ℕ) (v : Fin dm → ℝ) (hv : dotR dm v v ≠ 0) :
    metricScore dm .cosine v v = 1 := by
  unfold metricScore
  rw [Real.mul_self_sqrt (dotR_self_nonneg dm v)]
  exact div_self hv

theorem cosine_bounds (dm : ℕ) (q w : Fin dm → ℝ) :
    -1 ≤ metricScore dm .cosine q w ∧ metricScore dm .cosine q w ≤ 1 := by
  unfold metricScore
  have habs := abs_dotR_le dm q w
  rcases eq_or_lt_of_le
      (show (0:ℝ) ≤ Real.sqrt (dotR dm q q) * Real.sqrt (dotR dm w w) from by positivity)
    with h0 | h0
  · rw [← h0, div_zero]
    norm_num
  · obtain ⟨hlo, hhi⟩ := abs_le.mp habs
    constructor
    · rw [le_div_iff₀ h0]
      linarith
    · rw [div_le_one h0]
      exact hhi

theorem euclid_self (dm : ℕ) (v : Fin dm → ℝ) : metricScore dm .euclidean v v = 0 := by
  unfold metricScore
  simp

theorem euclid_nonpos (dm : ℕ) (q w : Fin dm → ℝ) : metricScore dm .euclidean q w ≤ 0 := by
  unfold metricScore
  exact neg_nonpos.mpr (Real.sqrt_nonneg _)

theorem euclid_neg_of_ne (dm : ℕ) (q w : Fin dm → ℝ) (h : w ≠ q) :
    metricScore dm .euclidean q w < 0 := by
  unfold metricScore
  have hpos : 0 < ∑ i, (q i - w i) ^ 2 := by
    have hne : ∃ i, q i ≠ w i := by
      by_contra hc
      push_neg at hc
      exact h (funext fun i => (hc i).symm)
    obtain ⟨i, hi⟩ := hne
    refine Finset.sum_pos' (fun j _ => sq_nonneg _) ⟨i, Finset.mem_univ i, ?_⟩
    exact pow_two_pos_of_ne_zero (sub_ne_zero.mpr hi)
  exact neg_lt_zero.mpr (Real.sqrt_pos.mpr hpos)

theorem flatSearch_head (dm : ℕ) (m : Metric) (entries : List (UUID × (Fin dm → ℝ)))
    (q : Fin dm → ℝ) (k : ℕ) (hk : 1 ≤ k) (hne : entries ≠ []) :
    ∃ h rest, flatSearch dm m entries q k = h :: rest ∧
      (∃ p ∈ entries, h = (p.1, metricScore dm m q p.2)) ∧
      ∀ p ∈ entries, metricScore dm m q p.2 ≤ h.2 := by
  have hmapne : entries.map (fun p => (p.1, metricScore dm m q p.2)) ≠ [] := by simp [hne]
  obtain ⟨h, rest, hrank, hmem, hmax⟩ := rankByScore_head_max _ hmapne
  obtain ⟨p0, hp0, hp0e⟩ := List.mem_map.mp hmem
  cases k with
  | zero => exact absurd hk (by norm_num)
  | succ n =>
    refine ⟨h, rest.take n, ?_, ⟨p0, hp0, hp0e.symm⟩, ?_⟩
    · unfold flatSearch
      rw [hrank]
      exact List.take_succ_cons
    · intro p hp
      exact hmax _ (List.mem_map_of_mem _ hp)

/-- C6 as amended (the flat index is modelled from the spec, its source
being absent from `src/`): scores are oriented larger-is-better - cosine
in [-1, 1], euclidean the negated distance with 0 for a perfect match and
strictly negative otherwise, dot-product the raw inner product. A query
identical to a stored vector attains the maximum possible score for
euclidean (0.0) and cosine (1.0, for a nonzero vector), and the
first-ranked result of the search carries exactly that maximum score.
For dot-product the identical vector scores its self-inner-product, but
need not rank first (see the counterexample). -/
theorem C6_flat_metric_scores (dm : ℕ) (entries : List (UUID × (Fin dm → ℝ)))
    (i : UUID) (v : Fin dm → ℝ) (k : ℕ)
    (hmem : (i, v) ∈ entries) (hk : 1 ≤ k) :
    (∀ j w, (j, w) ∈ entries →
      (-1 ≤ metricScore dm .cosine v w ∧ metricScore dm .cosine v w ≤ 1) ∧
      metricScore dm .euclidean v w ≤ 0 ∧
      (w ≠ v → metricScore dm .euclidean v w < 0)) ∧
    metricScore dm .euclidean v v = 0 ∧
    (∃ h rest, flatSearch dm .euclidean entries v k = h :: rest ∧ h.2 = 0) ∧
    (dotR dm v v ≠ 0 → metricScore dm .cosine v v = 1 ∧
      ∃ h rest, flatSearch dm .cosine entries v k = h :: rest ∧ h.2 = 1) ∧
    metricScore dm .dot_product v v = dotR dm v v := by
  have hne : entries ≠ [] := by
    rintro rfl
    simp at hmem
  refine ⟨?_, euclid_self dm v, ?_, ?_, rfl⟩
  · intro j w hjw
    exact ⟨cosine_bounds dm v w, euclid_nonpos dm v w, fun hwv => euclid_neg_of_ne dm v w hwv⟩
  · obtain ⟨h, rest, hsearch, ⟨p0, hp0, hp0e⟩, hmax⟩ :=
      flatSearch_head dm .euclidean entries v k hk hne
    refine ⟨h, rest, hsearch, le_antisymm ?_ ?_⟩
    · rw [hp0e]
      exact euclid_nonpos dm v p0.2
    · have hvv := hmax (i, v) hmem
      simpa [euclid_self] using hvv
  · intro hv
    refine ⟨cosine_self dm v hv, ?_⟩
    obtain ⟨h, rest, hsearch, ⟨p0, hp0, hp0e⟩, hmax⟩ :=
      flatSearch_head dm .cosine entries v k hk hne
    refine ⟨h, rest, hsearch, le_antisymm ?_ ?_⟩
    · rw [hp0e]
      exact (cosine_bounds dm v p0.2).2
    · have hvv := hmax (i, v) hmem
      simpa [cosine_self dm v hv] using hvv

/-- Counterexample to C6 as stated: under the dot-product metric the
stored vector [2] outranks the stored vector [1] for the query [1], even
though the query is identical to vector [1] - so the top-1 is not the
identical vector and its score 2 exceeds the self-dot 1. -/
theorem C6_counterexample :
    flatSearch 1 .dot_product
      [(0, fun _ => (1:ℝ)), (1, fun _ => (2:ℝ))] (fun _ => (1:ℝ)) 1 = [(1, 2)] ∧
    (0 : UUID) ≠ 1 ∧
    metricScore 1 .dot_product (fun _ => (1:ℝ)) (fun _ => (1:ℝ)) = 1 ∧
    (1:ℝ) < 2 := by
  have h1 : dotR 1 (fun _ => (1:ℝ)) (fun _ => (1:ℝ)) = 1 := by
    simp [dotR]
  have h2 : dotR 1 (fun _ => (1:ℝ)) (fun _ => (2:ℝ)) = 2 := by
    simp [dotR]
  refine ⟨?_, by norm_num, ?_, by norm_num⟩
  · norm_num [flatSearch, rankByScore, insertByScore, metricScore, h1, h2]
  · unfold metricScore
    exact h1

/-- Witness for the amended C6 at a concrete one-vector index. -/
theorem C6_flat_metric_scores_witness :
    metricScore 1 .cosine (fun _ => (1:ℝ)) (fun _ => (1:ℝ)) = 1 := by
  have hv : dotR 1 (fun _ => (1:ℝ)) (fun _ => (1:ℝ)) ≠ 0 := by
    simp [dotR]
  have h := C6_flat_metric_scores 1 [(0, fun _ => (1:ℝ))] 0 (fun _ => (1:ℝ)) 1
    (List.mem_singleton.mpr rfl) (le_refl 1)
  exact (h.2.2.2.1 hv).1

end VecDB
